import Mathlib

/-!
Verification development for the macho_edit Mach-O container editor
(`src/macho_edit/macho.cpp`).  The file state is modelled as a byte
function plus a size; every editing method of the `MachO` class that the
claims touch is translated into a pure state-transformer on `MachOState`.
External collaborators that are not part of `src/` (the `fileutils.h`
byte-range helpers, the `ROUND_UP` / `SWAP32` macros from `macros.h`, the
magic tables from `magicnames.h`, and the record layouts of Apple's
public Mach-O headers) are modelled from the specification's description
of their interfaces (spec §4.1, §6).
-/

/-- 32-bit truncating subtraction, mirroring `uint32_t` arithmetic. -/
def sub32 (a b : Nat) : Nat := (a + 2 ^ 32 - b % 2 ^ 32) % 2 ^ 32

/-- 64-bit truncating subtraction, mirroring `uint64_t` arithmetic. -/
def sub64 (a b : Nat) : Nat := (a + 2 ^ 64 - b % 2 ^ 64) % 2 ^ 64

/-- Modelled from the spec (§4.1): `ROUND_UP` from the missing `macros.h`:
smallest multiple of `a` that is `≥ x` (`a` is always a power of two). -/
def roundUp (x a : Nat) : Nat := (x + a - 1) / a * a

/-- Byte-reverse a 32-bit value. -/
def bswap32 (v : Nat) : Nat :=
  v % 256 * 2 ^ 24 + v / 2 ^ 8 % 256 * 2 ^ 16 + v / 2 ^ 16 % 256 * 2 ^ 8 + v / 2 ^ 24 % 256

/-- Byte-reverse a 64-bit value. -/
def bswap64 (v : Nat) : Nat :=
  bswap32 (v % 2 ^ 32) * 2 ^ 32 + bswap32 (v / 2 ^ 32 % 2 ^ 32)

def MH_MAGIC : Nat := 0xfeedface
def MH_CIGAM : Nat := 0xcefaedfe
def MH_MAGIC_64 : Nat := 0xfeedfacf
def MH_CIGAM_64 : Nat := 0xcffaedfe
def FAT_MAGIC : Nat := 0xcafebabe
def FAT_CIGAM : Nat := 0xbebafeca

def LC_SEGMENT : Nat := 0x1
def LC_SYMTAB : Nat := 0x2
def LC_SEGMENT_64 : Nat := 0x19
def LC_CODE_SIGNATURE : Nat := 0x1d

/-- Modelled from the spec (§3, §4.1): a magic needs byte-swapping iff it is
one of the byte-swapped ("CIGAM") forms. -/
def needsSwap (m : Nat) : Bool :=
  m = MH_CIGAM || m = MH_CIGAM_64 || m = FAT_CIGAM

/-- Modelled from the spec (§4.3): the six recognized magics
(`IS_MAGIC` from the missing `magicnames.h`). -/
def isMagic (m : Nat) : Bool :=
  m = MH_MAGIC || m = MH_CIGAM || m = MH_MAGIC_64 || m = MH_CIGAM_64 ||
  m = FAT_MAGIC || m = FAT_CIGAM

/-- `SWAP32(v, magic)`: byte-reverse iff `needs_swap(magic)` (spec §4.1). -/
def SWAP32 (v magic : Nat) : Nat :=
  if needsSwap magic then bswap32 (v % 2 ^ 32) else v % 2 ^ 32

/-- `SWAP64(v, magic)`: byte-reverse iff `needs_swap(magic)` (spec §4.1). -/
def SWAP64 (v magic : Nat) : Nat :=
  if needsSwap magic then bswap64 (v % 2 ^ 64) else v % 2 ^ 64

/-- Little-endian (host-order) 32-bit read from a byte list. -/
def read32 (bs : List Nat) (off : Nat) : Nat :=
  bs.getD off 0 + bs.getD (off + 1) 0 * 2 ^ 8 + bs.getD (off + 2) 0 * 2 ^ 16 +
  bs.getD (off + 3) 0 * 2 ^ 24

/-- Little-endian (host-order) 64-bit read from a byte list. -/
def read64 (bs : List Nat) (off : Nat) : Nat :=
  read32 bs off + read32 bs (off + 4) * 2 ^ 32

/-- Overwrite four bytes, little-endian, in a byte list. -/
def write32 (bs : List Nat) (off v : Nat) : List Nat :=
  (((bs.set off (v % 256)).set (off + 1) (v / 2 ^ 8 % 256)).set
    (off + 2) (v / 2 ^ 16 % 256)).set (off + 3) (v / 2 ^ 24 % 256)

/-- Overwrite eight bytes, little-endian, in a byte list. -/
def write64 (bs : List Nat) (off v : Nat) : List Nat :=
  write32 (write32 bs off (v % 2 ^ 32)) (off + 4) (v / 2 ^ 32 % 2 ^ 32)

/-- Serialize a 32-bit value as four little-endian bytes. -/
def encode32 (v : Nat) : List Nat :=
  [v % 256, v / 2 ^ 8 % 256, v / 2 ^ 16 % 256, v / 2 ^ 24 % 256]

/-- The bytes of the 11-character C string literal `"__LINKEDIT"`
(terminating NUL included), as compared by `strncmp`. -/
def linkeditName : List Nat := [95, 95, 76, 73, 78, 75, 69, 68, 73, 84, 0]

/-- `strncmp(c->segname, "__LINKEDIT", 16) == 0`: the comparison stops at the
literal's NUL, so it returns 0 iff the first 11 bytes of the 16-byte
`segname` field (payload bytes 8..24) equal `"__LINKEDIT\0"`.  Modelled from
the spec (§4.8): the `segname` field starts at byte 8 of a segment command,
per Apple's public headers. -/
def segnameIsLinkedit (raw : List Nat) : Bool :=
  (List.range 11).all fun k => raw.getD (8 + k) 0 = linkeditName.getD k 0

/-! ## The file model

A file is a total byte function together with its current length.  Reads
beyond the length observe 0 (POSIX: a grown file reads zeros there); the
observable content of a file is `read` restricted to `[0, size)`. -/

structure FileData where
  data : Nat → Nat
  size : Nat

instance : Inhabited FileData := ⟨⟨fun _ => 0, 0⟩⟩

/-- Observable byte at position `p` (0 beyond the end of the file). -/
def FileData.read (f : FileData) (p : Nat) : Nat :=
  if p < f.size then f.data p else 0

/-- `ftruncate`: change the file length; a later grow exposes zeros. -/
def ftruncate (f : FileData) (n : Nat) : FileData := ⟨f.read, n⟩

/-- `fwrite` of a byte list at an absolute offset (extends the file when the
write reaches past the current end). -/
def fwriteBytes (f : FileData) (off : Nat) (bs : List Nat) : FileData :=
  ⟨fun p => if off ≤ p ∧ p < off + bs.length then bs.getD (p - off) 0 else f.read p,
   max f.size (off + bs.length)⟩

/-- Modelled from the spec (§6): `zero_range(off, len)` — `fzero` from the
missing `fileutils.h`. -/
def fzero (f : FileData) (off len : Nat) : FileData :=
  ⟨fun p => if off ≤ p ∧ p < off + len then 0 else f.read p, max f.size (off + len)⟩

/-- Modelled from the spec (§6): `move_range(off_dst, off_src, len)` with
overlap handled correctly (reads are from the pre-move contents) — `fmove`
from the missing `fileutils.h`. -/
def fmove (f : FileData) (dst src len : Nat) : FileData :=
  ⟨fun p => if dst ≤ p ∧ p < dst + len then f.read (src + (p - dst)) else f.read p,
   max f.size (dst + len)⟩

/-- Modelled from the spec (§6): `copy_range(dst_file, off_dst, src_file,
off_src, len)` — `fcpy` from the missing `fileutils.h`. -/
def fcpy (f : FileData) (dstoff : Nat) (src : FileData) (srcoff len : Nat) : FileData :=
  ⟨fun p => if dstoff ≤ p ∧ p < dstoff + len then src.read (srcoff + (p - dstoff)) else f.read p,
   max f.size (dstoff + len)⟩

/-- Build a file whose contents are the given byte list. -/
def mkFile (bs : List Nat) : FileData := ⟨fun p => bs.getD p 0, bs.length⟩

/-- Byte-identical files: same length, same observable bytes. -/
def sameFile (f g : FileData) : Prop :=
  f.size = g.size ∧ ∀ p < f.size, f.read p = g.read p

instance (f g : FileData) : Decidable (sameFile f g) := by
  unfold sameFile; exact inferInstance

/-! ## The container data model (spec §3, `macho.h` state read by `macho.cpp`) -/

/-- One fat-table entry (`fat_arch`), in host order. -/
structure FatArch where
  cputype : Nat
  cpusubtype : Nat
  offset : Nat
  size : Nat
  align : Nat
deriving DecidableEq

instance : Inhabited FatArch := ⟨⟨0, 0, 0, 0, 0⟩⟩

/-- The per-slice `mach_header` (seven 32-bit words), stored as read. -/
structure MachHeader where
  magic : Nat
  cputype : Nat
  cpusubtype : Nat
  filetype : Nat
  ncmds : Nat
  sizeofcmds : Nat
  flags : Nat
deriving DecidableEq

instance : Inhabited MachHeader := ⟨⟨0, 0, 0, 0, 0, 0, 0⟩⟩

/-- A decoded load-command record: command ID and size in host order, the
absolute file offset of the record, and the owned payload bytes (exactly
`cmdsize` bytes, in the slice's byte order). -/
structure LoadCommand where
  cmd : Nat
  cmdsize : Nat
  file_offset : Nat
  raw_lc : List Nat
deriving DecidableEq

instance : Inhabited LoadCommand := ⟨⟨0, 0, 0, []⟩⟩

/-- One architecture slice: fat entry, mach header, load-command list. -/
structure MachOArch where
  fat_arch : FatArch
  mach_header : MachHeader
  load_commands : List LoadCommand
deriving DecidableEq

instance : Inhabited MachOArch := ⟨⟨default, default, []⟩⟩

/-- The `MachO` container state: file contents, tracked `file_size`,
fat/thin flag, remembered fat magic, arch count and arch list. -/
structure MachOState where
  file : FileData
  file_size : Nat
  is_fat : Bool
  fat_magic : Nat
  n_archs : Nat
  archs : List MachOArch

/-- `sizeof(fat_header)`: two 32-bit words. -/
def fatHeaderSize : Nat := 8

/-- `sizeof(mach_header)`: seven 32-bit words (the source reads and writes
the 32-bit `mach_header` struct). -/
def machHeaderSize : Nat := 28

/-- Serialize the mach header verbatim (seven host-order words), as
`WRITE(arch.mach_header, file)` does. -/
def encodeMachHeader (mh : MachHeader) : List Nat :=
  encode32 mh.magic ++ encode32 mh.cputype ++ encode32 mh.cpusubtype ++
  encode32 mh.filetype ++ encode32 mh.ncmds ++ encode32 mh.sizeofcmds ++ encode32 mh.flags

/-- `MachO::swap_arch`: swap all five 32-bit fields of a `fat_arch` by the
container's fat magic. -/
def swapArch (fat_magic : Nat) (fa : FatArch) : FatArch :=
  ⟨SWAP32 fa.cputype fat_magic, SWAP32 fa.cpusubtype fat_magic,
   SWAP32 fa.offset fat_magic, SWAP32 fa.size fat_magic, SWAP32 fa.align fat_magic⟩

/-- The 20 bytes of one on-disk fat entry (written in swapped form). -/
def encodeFatArch (fat_magic : Nat) (fa : FatArch) : List Nat :=
  encode32 (SWAP32 fa.cputype fat_magic) ++ encode32 (SWAP32 fa.cpusubtype fat_magic) ++
  encode32 (SWAP32 fa.offset fat_magic) ++ encode32 (SWAP32 fa.size fat_magic) ++
  encode32 (SWAP32 fa.align fat_magic)

/-! ## Header serialization (`macho.cpp` lines 82–135) -/

/-- `MachO::write_fat_header` (lines 82–94): only when `is_fat`, write the
fat magic and the swapped arch count at offset 0. -/
def write_fat_header (s : MachOState) : MachOState :=
  if s.is_fat = false then s
  else
    let hdr := encode32 s.fat_magic ++ encode32 (SWAP32 s.n_archs s.fat_magic)
    {s with file := fwriteBytes s.file 0 hdr}

/-- The fat-branch loop of `write_fat_archs`: write each swapped entry
sequentially starting right after the fat header. -/
def writeFatArchsLoop (fat_magic : Nat) : List MachOArch → FileData → Nat → FileData
  | [], f, _ => f
  | a :: rest, f, off =>
      writeFatArchsLoop fat_magic rest (fwriteBytes f off (encodeFatArch fat_magic a.fat_arch)) (off + 20)

/-- `MachO::write_fat_archs` (lines 96–125).  Thin: truncate the file to the
single arch's size when they disagree.  Fat: write all fat entries after the
fat header, then truncate to `last.offset + last.size` when that differs
from `file_size`. -/
def write_fat_archs (s : MachOState) : MachOState :=
  if s.is_fat = false then
    let arch_size := (s.archs.getD 0 default).fat_arch.size
    if s.file_size ≠ arch_size then
      {s with file := ftruncate s.file arch_size, file_size := arch_size}
    else s
  else
    let f1 := writeFatArchsLoop s.fat_magic s.archs s.file fatHeaderSize
    if 0 < s.n_archs then
      let last := (s.archs.getLast?).getD default
      let new_size := (last.fat_arch.offset + last.fat_arch.size) % 2 ^ 32
      if new_size ≠ s.file_size then
        {s with file := ftruncate f1 new_size, file_size := new_size}
      else {s with file := f1}
    else {s with file := f1}

/-- `MachO::write_mach_header` (lines 127–130): write the header struct at
the slice's offset. -/
def write_mach_header (s : MachOState) (arch : MachOArch) : MachOState :=
  {s with file := fwriteBytes s.file arch.fat_arch.offset (encodeMachHeader arch.mach_header)}

/-- `MachO::write_load_command` (lines 132–135): write the `cmdsize` payload
bytes at the record's file offset. -/
def write_load_command (s : MachOState) (lc : LoadCommand) : MachOState :=
  {s with file := fwriteBytes s.file lc.file_offset lc.raw_lc}

/-! ## Thin ↔ fat conversion (`macho.cpp` lines 165–208) -/

/-- `MachO::make_fat` (lines 165–188).  Note the source's ordering: the file
is grown and the content moved, `fzero` is called with the arguments
`(offset, 0)` (a zero-length range), and `write_fat_header` /
`write_fat_archs` run while `is_fat` is still false; only afterwards are
`is_fat` and `file_size` updated. -/
def make_fat (s : MachOState) : MachOState :=
  let arch := s.archs.getD 0 default
  let offset := roundUp fatHeaderSize (2 ^ arch.fat_arch.align)
  let f1 := ftruncate s.file ((s.file_size + offset) % 2 ^ 32)
  let f2 := fmove f1 offset 0 s.file_size
  let f3 := fzero f2 offset 0
  let s1 := {s with file := f3, fat_magic := FAT_CIGAM}
  let s2 := write_fat_header s1
  let arch1 := {arch with fat_arch := {arch.fat_arch with offset := offset}}
  let s3 := {s2 with archs := s2.archs.set 0 arch1}
  let s4 := write_fat_archs s3
  {s4 with is_fat := true, file_size := (s4.file_size + offset) % 2 ^ 32}

/-- `MachO::make_thin` (lines 190–208): keep only the chosen arch, move its
slice bytes to offset 0 and truncate to its size. -/
def make_thin (s : MachOState) (arch_index : Nat) : MachOState :=
  let arch := s.archs.getD arch_index default
  let size := arch.fat_arch.size
  let f1 := fmove s.file 0 arch.fat_arch.offset size
  let f2 := ftruncate f1 size
  {s with archs := [arch], file := f2, file_size := size, n_archs := 1, is_fat := false}

/-- `MachO::insert_arch_from_macho` (lines 267–295).  The donor arch's fat
entry is swapped by the donor's magic and then by the recipient's; the
destination offset is `current file size` rounded up to the entry's
alignment; the file is grown to `file_size + offset`; the gap is zeroed; the
slice bytes are copied from offset 0 of the donor's file; finally the fat
header and entries are re-emitted. -/
def insert_arch_from_macho (s donor : MachOState) (arch_index : Nat) : MachOState :=
  let s0 := {s with n_archs := (s.n_archs + 1) % 2 ^ 32}
  let arch := donor.archs.getD arch_index default
  let fa := swapArch s0.fat_magic (swapArch donor.fat_magic arch.fat_arch)
  let offset := roundUp s0.file_size (2 ^ fa.align)
  let fa1 := {fa with offset := offset}
  let arch1 := {arch with fat_arch := fa1}
  let s1 := {s0 with archs := s0.archs ++ [arch1]}
  let new_size := (s1.file_size + offset) % 2 ^ 32
  let f1 := ftruncate s1.file new_size
  let f2 := fzero f1 s1.file_size (offset - s1.file_size)
  let f3 := fcpy f2 offset donor.file 0 fa1.size
  let s2 := {s1 with file := f3, file_size := new_size}
  write_fat_archs (write_fat_header s2)

/-! ## Load-command operations (`macho.cpp` lines 297–373) -/

/-- The slide loop of `move_load_command` (lines 333–340): rewrite each
command of the block at consecutive offsets starting at `off`, updating the
in-memory `file_offset` of each; returns the updated block, the file, and
the offset one past the block. -/
def slideLCs : List LoadCommand → FileData → Nat → List LoadCommand × FileData × Nat
  | [], f, off => ([], f, off)
  | lc :: rest, f, off =>
      let f1 := fwriteBytes f off lc.raw_lc
      let r := slideLCs rest f1 (off + lc.cmdsize)
      ({lc with file_offset := off} :: r.1, r.2)

/-- The `lc_index < new_index` body of `move_load_command` (lines 326–347):
slide the commands between the two indices one slot down on disk, write the
moved command after them, then erase it from its old list position and push
it at the end of the in-memory list. -/
def moveCore (s : MachOState) (arch_index lc_index new_index : Nat) : MachOState :=
  let arch := s.archs.getD arch_index default
  let lcs := arch.load_commands
  let lc_to_move := lcs.getD lc_index default
  let block := (lcs.drop (lc_index + 1)).take (new_index - lc_index)
  let r := slideLCs block s.file lc_to_move.file_offset
  let moved := {lc_to_move with file_offset := r.2.2}
  let f2 := fwriteBytes r.2.1 r.2.2 lc_to_move.raw_lc
  let lcs1 := lcs.take lc_index ++ r.1 ++ lcs.drop (new_index + 1) ++ [moved]
  {s with file := f2,
          archs := s.archs.set arch_index {arch with load_commands := lcs1}}

/-- `MachO::move_load_command` (lines 317–348): no-op when the indices are
equal; when `lc_index > new_index` recurse with the arguments swapped. -/
def move_load_command (s : MachOState) (arch_index lc_index new_index : Nat) : MachOState :=
  if lc_index = new_index then s
  else if new_index < lc_index then moveCore s arch_index new_index lc_index
  else moveCore s arch_index lc_index new_index

/-- The tail of `MachO::remove_load_command` (lines 305–314), acting on the
LAST load command of the arch: decrement `ncmds`, subtract its `cmdsize`
from `sizeofcmds`, write the mach header, zero the vacated range, and drop
the last list entry. -/
def removeLastLC (s1 : MachOState) (arch_index : Nat) : MachOState :=
  let arch := s1.archs.getD arch_index default
  let lc := arch.load_commands.getLast?.getD default
  let arch2 := {arch with mach_header :=
    {arch.mach_header with ncmds := sub32 arch.mach_header.ncmds 1,
                           sizeofcmds := sub32 arch.mach_header.sizeofcmds lc.cmdsize}}
  let s2 := {s1 with archs := s1.archs.set arch_index arch2}
  let s3 := write_mach_header s2 arch2
  let f := fzero s3.file lc.file_offset lc.cmdsize
  let arch3 := {arch2 with load_commands := arch2.load_commands.dropLast}
  {s3 with file := f, archs := s3.archs.set arch_index arch3}

/-- `MachO::remove_load_command` (lines 297–315): move the command to the
end when more than one exists, then remove the (now) last command. -/
def remove_load_command (s : MachOState) (arch_index lc_index : Nat) : MachOState :=
  let arch0 := s.archs.getD arch_index default
  removeLastLC
    (if 1 < arch0.load_commands.length then
      move_load_command s arch_index lc_index (arch0.load_commands.length - 1)
    else s) arch_index

/-- `MachO::insert_load_command` (lines 350–373).  The target offset is
after the last command, or `slice.offset + slice.size` when the list is
empty; the payload's `cmdsize` is interpreted under the slice magic.  The
pushed record (the `LoadCommand` constructor lives in the missing `macho.h`)
is modelled from the spec (§3, §4.7): `cmd` and `cmdsize` decoded from the
payload under the slice magic, owning exactly `cmdsize` payload bytes. -/
def insert_load_command (s : MachOState) (arch_index : Nat) (raw : List Nat) : MachOState :=
  let arch := s.archs.getD arch_index default
  let offset :=
    match arch.load_commands.getLast? with
    | none => (arch.fat_arch.offset + arch.fat_arch.size) % 2 ^ 32
    | some last => (last.file_offset + last.cmdsize) % 2 ^ 32
  let magic := arch.mach_header.magic
  let cmdsize := SWAP32 (read32 raw 4) magic
  let f1 := fwriteBytes s.file offset (raw.take cmdsize)
  let newLc : LoadCommand := ⟨SWAP32 (read32 raw 0) magic, cmdsize, offset, raw.take cmdsize⟩
  let arch1 := {arch with
    load_commands := arch.load_commands ++ [newLc],
    mach_header := {arch.mach_header with
      ncmds := (arch.mach_header.ncmds + 1) % 2 ^ 32,
      sizeofcmds := (arch.mach_header.sizeofcmds + cmdsize) % 2 ^ 32}}
  let s1 := {s with archs := s.archs.set arch_index arch1, file := f1}
  write_mach_header s1 arch1

/-! ## Code-signature removal (`macho.cpp` lines 383–476) -/

/-- The result of the single scan over the load commands (lines 387–412):
the indices remembered in `codesig_lc`/`codesig_index`, `linkedit_lc` and
`symtab_lc`. -/
structure ScanResult where
  codesig : Option Nat
  linkedit : Option Nat
  symtab : Option Nat
deriving DecidableEq

instance : Inhabited ScanResult := ⟨⟨none, none, none⟩⟩

/-- One iteration of the scan loop's `switch` (lines 394–410).  For segment
commands the source tests `strncmp(c->segname, "__LINKEDIT", 16)` and
remembers the segment when the result is NONZERO, i.e. when the name
DIFFERS from `"__LINKEDIT"` (the inverted comparison flagged in spec §9). -/
def scanStep (i : Nat) (lc : LoadCommand) (r : ScanResult) : ScanResult :=
  if lc.cmd = LC_CODE_SIGNATURE then {r with codesig := some i}
  else if lc.cmd = LC_SEGMENT ∨ lc.cmd = LC_SEGMENT_64 then
    (if segnameIsLinkedit lc.raw_lc then r else {r with linkedit := some i})
  else if lc.cmd = LC_SYMTAB then {r with symtab := some i}
  else r

def scanLCsAux : Nat → List LoadCommand → ScanResult → ScanResult
  | _, [], r => r
  | i, lc :: rest, r => scanLCsAux (i + 1) rest (scanStep i lc r)

/-- The whole scan loop of `remove_codesignature` (lines 392–412). -/
def scanLCs (lcs : List LoadCommand) : ScanResult :=
  scanLCsAux 0 lcs ⟨none, none, none⟩

/-- The `size_reduction` computation (lines 442–453): the code-signature
`datasize`, increased by the symtab tail gap
`(slice.size − reduction) − (stroff + strsize)` when a symtab exists and the
gap lies in `[0, 16]`.  `stroff + strsize` is a wrapping `uint32` sum; the
subtraction is exact `int64_t` arithmetic; the increment truncates back to
`uint32`. -/
def sizeReductionOf (arch : MachOArch) (symtab : Option Nat) (codesig_size magic : Nat) : Nat :=
  match symtab with
  | none => codesig_size
  | some si =>
    let symtabLc := arch.load_commands.getD si default
    let strsize := SWAP32 (read32 symtabLc.raw_lc 20) magic
    let stroff := SWAP32 (read32 symtabLc.raw_lc 16) magic
    let diff : Int := ((arch.fat_arch.size : Int) - (codesig_size : Int)) -
      (((stroff + strsize) % 2 ^ 32 : Nat) : Int)
    if 0 ≤ diff ∧ diff ≤ 0x10 then (codesig_size + diff.toNat) % 2 ^ 32 else codesig_size

/-- `MachO::remove_codesignature` (lines 383–476).  Field offsets inside the
payloads (`dataoff`/`datasize` at bytes 8/12 of a `linkedit_data_command`;
`vmsize`/`fileoff`/`filesize` at bytes 28/32/36 of a `segment_command` and
32/40/48 of a `segment_command_64`; `stroff`/`strsize` at bytes 16/20 of a
`symtab_command`) follow Apple's public headers (spec §6). -/
def remove_codesignature (s : MachOState) (arch_index : Nat) : Bool × MachOState :=
  let arch := s.archs.getD arch_index default
  let magic := arch.mach_header.magic
  let scan := scanLCs arch.load_commands
  match scan.codesig, scan.linkedit with
  | some ci, some li =>
    let codesig := arch.load_commands.getD ci default
    let codesig_offset := SWAP32 (read32 codesig.raw_lc 8) magic
    let codesig_size := SWAP32 (read32 codesig.raw_lc 12) magic
    if (codesig_offset + codesig_size) % 2 ^ 32 ≠ arch.fat_arch.size then (false, s)
    else
      let linkedit := arch.load_commands.getD li default
      let linkedit_offset :=
        if linkedit.cmd = LC_SEGMENT then SWAP32 (read32 linkedit.raw_lc 32) magic
        else SWAP64 (read64 linkedit.raw_lc 40) magic
      let linkedit_size :=
        if linkedit.cmd = LC_SEGMENT then SWAP32 (read32 linkedit.raw_lc 36) magic
        else SWAP64 (read64 linkedit.raw_lc 48) magic
      if (linkedit_offset + linkedit_size) % 2 ^ 64 ≠ arch.fat_arch.size then (false, s)
      else
        let size_reduction := sizeReductionOf arch scan.symtab codesig_size magic
        let new_linkedit_size := sub64 linkedit_size size_reduction
        let new_vmsize := roundUp new_linkedit_size 0x1000 % 2 ^ 64
        let newRaw :=
          if linkedit.cmd = LC_SEGMENT then
            write32 (write32 linkedit.raw_lc 36 (SWAP32 (new_linkedit_size % 2 ^ 32) magic))
              28 (SWAP32 (new_vmsize % 2 ^ 32) magic)
          else
            write64 (write64 linkedit.raw_lc 48 (SWAP64 new_linkedit_size magic))
              32 (SWAP64 new_vmsize magic)
        let linkedit1 := {linkedit with raw_lc := newRaw}
        let arch1 := {arch with
          fat_arch := {arch.fat_arch with size := sub32 arch.fat_arch.size size_reduction},
          load_commands := arch.load_commands.set li linkedit1}
        let s1 := {s with archs := s.archs.set arch_index arch1}
        let s2 := write_fat_archs s1
        let s3 := write_load_command s2 linkedit1
        let s4 := remove_load_command s3 arch_index ci
        (true, s4)
  | _, _ => (false, s)

/-! ## Container open validation (`macho.cpp` lines 19–44) -/

inductive OpenError where
  | FileTooLarge : OpenError
  | UnknownMagic : Nat → OpenError
deriving DecidableEq

/-- The first four bytes of the file read as a host-order `uint32`
(`PEEK(magic, file)`). -/
def fileMagic (f : FileData) : Nat :=
  f.read 0 + f.read 1 * 2 ^ 8 + f.read 2 * 2 ^ 16 + f.read 3 * 2 ^ 24

/-- The validation sequence of the constructor `MachO::MachO(const char *)`
(lines 27–44): the size limit is tested first (line 31), the magic only
afterwards (line 40). -/
def openValidate (f : FileData) : Except OpenError Unit :=
  if 2 ^ 32 - 1 < f.size then Except.error OpenError.FileTooLarge
  else if isMagic (fileMagic f) = false then Except.error (OpenError.UnknownMagic (fileMagic f))
  else Except.ok ()

/-! ## Invariants (spec §3, §8 property 4; claim C2) -/

/-- Sum of the in-memory `cmdsize` fields. -/
def sumCmdsizes (lcs : List LoadCommand) : Nat := (lcs.map (fun lc => lc.cmdsize)).sum

/-- The load commands are contiguous on disk starting at `off`: the i-th
record's `file_offset` is `off` plus the sum of the prior `cmdsize`s. -/
def lcLayout : Nat → List LoadCommand → Prop
  | _, [] => True
  | off, lc :: rest => lc.file_offset = off ∧ lcLayout (off + lc.cmdsize) rest

instance decLcLayout : (off : Nat) → (lcs : List LoadCommand) → Decidable (lcLayout off lcs)
  | _, [] => isTrue trivial
  | off, lc :: rest =>
      have : Decidable (lcLayout (off + lc.cmdsize) rest) := decLcLayout _ rest
      decidable_of_iff (lc.file_offset = off ∧ lcLayout (off + lc.cmdsize) rest) Iff.rfl

/-- The record's payload bytes are the bytes actually on disk at its
`file_offset`. -/
def diskHas (f : FileData) (lc : LoadCommand) : Prop :=
  ∀ k < lc.raw_lc.length, f.read (lc.file_offset + k) = lc.raw_lc.getD k 0

instance (f : FileData) (lc : LoadCommand) : Decidable (diskHas f lc) := by
  unfold diskHas; exact inferInstance

/-- Claim C2's invariant for one arch: `Σ cmdsize = sizeofcmds`,
`count = ncmds`, the i-th record's `file_offset` is
`slice.offset + sizeof(MachHeader) + Σ_{k<i} cmdsize`, and the in-memory
list describes the bytes actually on disk. -/
def archInv (f : FileData) (a : MachOArch) : Prop :=
  sumCmdsizes a.load_commands = a.mach_header.sizeofcmds ∧
  a.load_commands.length = a.mach_header.ncmds ∧
  lcLayout (a.fat_arch.offset + machHeaderSize) a.load_commands ∧
  ∀ lc ∈ a.load_commands, diskHas f lc

instance (f : FileData) (a : MachOArch) : Decidable (archInv f a) := by
  unfold archInv; exact inferInstance

/-- Structural well-formedness of the in-memory records: each payload is
exactly `cmdsize` bytes of genuine bytes, and the header counters are
in `uint32` range. -/
def archWf (a : MachOArch) : Prop :=
  (∀ lc ∈ a.load_commands, lc.raw_lc.length = lc.cmdsize ∧ ∀ b ∈ lc.raw_lc, b < 256) ∧
  a.mach_header.sizeofcmds < 2 ^ 32 ∧ a.mach_header.ncmds < 2 ^ 32

instance (a : MachOArch) : Decidable (archWf a) := by
  unfold archWf; exact inferInstance

/-! ## Concrete states used to evaluate the code on specific inputs -/

/-- 16-byte zero-padded segname `"__TEXT"`. -/
def textName : List Nat := [95, 95, 84, 69, 88, 84, 0, 0, 0, 0, 0, 0, 0, 0, 0, 0]

/-- A 56-byte `segment_command` payload with the given name, `fileoff` and
`filesize` (`vmaddr`/`vmsize`/protections/`nsects`/`flags` zero). -/
def segRaw32 (name : List Nat) (fileoff filesize : Nat) : List Nat :=
  encode32 LC_SEGMENT ++ encode32 56 ++ name ++ encode32 0 ++ encode32 0 ++
  encode32 fileoff ++ encode32 filesize ++ encode32 0 ++ encode32 0 ++ encode32 0 ++ encode32 0

/-- A 16-byte `linkedit_data_command` payload for `LC_CODE_SIGNATURE`. -/
def csRaw (dataoff datasize : Nat) : List Nat :=
  encode32 LC_CODE_SIGNATURE ++ encode32 16 ++ encode32 dataoff ++ encode32 datasize

/-- `__TEXT` segment record: `fileoff 64`, `filesize 64`, on disk at 28. -/
def lcSegText : LoadCommand := ⟨LC_SEGMENT, 56, 28, segRaw32 textName 64 64⟩

/-- Code-signature record: `dataoff 96`, `datasize 32`, on disk at 84. -/
def lcCodesig : LoadCommand := ⟨LC_CODE_SIGNATURE, 16, 84, csRaw 96 32⟩

/-- A thin slice of 128 bytes whose only segment is `__TEXT` (there is no
`__LINKEDIT` segment) and whose code signature is the trailing 32 bytes. -/
def exThin : MachOState :=
  ⟨mkFile (List.replicate 28 0 ++ segRaw32 textName 64 64 ++ csRaw 96 32 ++ List.replicate 28 7),
   128, false, FAT_CIGAM, 1,
   [⟨⟨7, 3, 0, 128, 12⟩, ⟨MH_MAGIC, 7, 3, 2, 2, 72, 0⟩, [lcSegText, lcCodesig]⟩]⟩

/-- Three 8-byte load commands at offsets 28/36/44 of a 52-byte slice. -/
def lcA : LoadCommand := ⟨0, 8, 28, List.replicate 8 1⟩
def lcB : LoadCommand := ⟨0, 8, 36, List.replicate 8 2⟩
def lcC : LoadCommand := ⟨0, 8, 44, List.replicate 8 3⟩

/-- A consistent slice with the three commands `lcA`, `lcB`, `lcC`. -/
def exMove3 : MachOState :=
  ⟨mkFile (List.replicate 28 0 ++ List.replicate 8 1 ++ List.replicate 8 2 ++ List.replicate 8 3),
   52, false, FAT_CIGAM, 1,
   [⟨⟨0, 0, 0, 52, 0⟩, ⟨MH_MAGIC, 0, 0, 0, 3, 24, 0⟩, [lcA, lcB, lcC]⟩]⟩

/-- A consistent slice with the two commands `lcA`, `lcB` only. -/
def exMove2 : MachOState :=
  ⟨mkFile (List.replicate 28 0 ++ List.replicate 8 1 ++ List.replicate 8 2),
   44, false, FAT_CIGAM, 1,
   [⟨⟨0, 0, 0, 44, 0⟩, ⟨MH_MAGIC, 0, 0, 0, 2, 16, 0⟩, [lcA, lcB]⟩]⟩

/-- `__TEXT` segment record of the fat example, on disk at 92. -/
def lcSegTextF : LoadCommand := ⟨LC_SEGMENT, 56, 92, segRaw32 textName 64 64⟩

/-- Code-signature record of the fat example, on disk at 148. -/
def lcCodesigF : LoadCommand := ⟨LC_CODE_SIGNATURE, 16, 148, csRaw 96 32⟩

/-- A fat container with two slices; the FIRST slice (offset 64, size 128)
carries the signature, the second (offset 192, size 64) is last, so
`write_fat_archs` truncates to `192 + 64 = 256`, the unchanged total. -/
def exFat : MachOState :=
  ⟨mkFile (List.replicate 92 0 ++ segRaw32 textName 64 64 ++ csRaw 96 32 ++ List.replicate 92 0),
   256, true, FAT_CIGAM, 2,
   [⟨⟨7, 3, 64, 128, 2⟩, ⟨MH_MAGIC, 7, 3, 2, 2, 72, 0⟩, [lcSegTextF, lcCodesigF]⟩,
    ⟨⟨16777223, 3, 192, 64, 2⟩, ⟨MH_MAGIC_64, 16777223, 3, 2, 0, 0, 0⟩, []⟩]⟩

/-- Recipient for slice insertion: fat, one slice, 64 bytes of 1s. -/
def exRcpt : MachOState :=
  ⟨mkFile (List.replicate 64 1), 64, true, FAT_MAGIC, 1,
   [⟨⟨7, 3, 32, 32, 2⟩, ⟨MH_MAGIC, 7, 3, 2, 0, 0, 0⟩, []⟩]⟩

/-- Donor for slice insertion: fat, one slice at offset 32 of size 16; the
donor file is 7s below offset 32 and 9s in the slice `[32, 48)`. -/
def exDonor : MachOState :=
  ⟨mkFile (List.replicate 32 7 ++ List.replicate 16 9), 48, true, FAT_MAGIC, 1,
   [⟨⟨7, 3, 32, 16, 2⟩, ⟨MH_MAGIC, 7, 3, 2, 0, 0, 0⟩, []⟩]⟩

/-- A 32-byte thin file of 9s with alignment exponent 5, so
`header_reserve = round_up(8, 32) = 32`. -/
def exC8 : MachOState :=
  ⟨mkFile (List.replicate 32 9), 32, false, FAT_CIGAM, 1,
   [⟨⟨7, 3, 0, 32, 5⟩, ⟨MH_MAGIC, 7, 3, 2, 0, 0, 0⟩, []⟩]⟩

/-- A 4-byte thin file with alignment exponent 0. -/
def exC5 : MachOState :=
  ⟨mkFile [5, 6, 7, 8], 4, false, FAT_CIGAM, 1,
   [⟨⟨7, 3, 0, 4, 0⟩, ⟨MH_MAGIC, 7, 3, 2, 0, 0, 0⟩, []⟩]⟩

/-- A file of `2^32` zero bytes: over the size limit, unrecognized magic. -/
def exBigFile : FileData := ⟨fun _ => 0, 2 ^ 32⟩

/-- First (invalid) code-signature record: `dataoff 0`, `datasize 10`. -/
def lcCsA : LoadCommand := ⟨LC_CODE_SIGNATURE, 16, 84, csRaw 0 10⟩

/-- Second (valid, trailing) code-signature record: `dataoff 128`,
`datasize 32`. -/
def lcCsB : LoadCommand := ⟨LC_CODE_SIGNATURE, 16, 100, csRaw 128 32⟩

/-- `__TEXT` segment record for the two-signature slice. -/
def lcSegText80 : LoadCommand := ⟨LC_SEGMENT, 56, 28, segRaw32 textName 80 80⟩

/-- A thin slice of 160 bytes whose load commands contain TWO
`LC_CODE_SIGNATURE` records; only the second one's `dataoff + datasize`
equals the slice size. -/
def exTwoCS : MachOState :=
  ⟨mkFile (List.replicate 28 0 ++ segRaw32 textName 80 80 ++ csRaw 0 10 ++ csRaw 128 32 ++
     List.replicate 44 0),
   160, false, FAT_CIGAM, 1,
   [⟨⟨7, 3, 0, 160, 12⟩, ⟨MH_MAGIC, 7, 3, 2, 3, 88, 0⟩, [lcSegText80, lcCsA, lcCsB]⟩]⟩

/-- A thin slice of 256 bytes: `__TEXT` covers `[128, 256)`, the signature
is the trailing 32 bytes, and the load commands end at 100, well below the
reduced size. -/
def exThin2 : MachOState :=
  ⟨mkFile (List.replicate 28 0 ++ segRaw32 textName 128 128 ++ csRaw 224 32 ++
     List.replicate 156 0),
   256, false, FAT_CIGAM, 1,
   [⟨⟨7, 3, 0, 256, 12⟩, ⟨MH_MAGIC, 7, 3, 2, 2, 72, 0⟩,
     [⟨LC_SEGMENT, 56, 28, segRaw32 textName 128 128⟩,
      ⟨LC_CODE_SIGNATURE, 16, 84, csRaw 224 32⟩]⟩]⟩

/-- The in-memory effect of the slide loop on the block's records: offsets
reassigned contiguously from `off`, everything else unchanged (this is the
first component of `slideLCs`, separated from the file writes). -/
def slideAssign : Nat → List LoadCommand → List LoadCommand
  | _, [] => []
  | off, lc :: rest => {lc with file_offset := off} :: slideAssign (off + lc.cmdsize) rest

/-- A record with its `file_offset` replaced. -/
def movedLC (lc : LoadCommand) (off : Nat) : LoadCommand := {lc with file_offset := off}

/-- An arch with its load-command list replaced. -/
def archWithLCs (a : MachOArch) (l : List LoadCommand) : MachOArch :=
  {a with load_commands := l}

/-- The in-memory load-command list after moving the record at position
`l1.length` of `l1 ++ lc :: l2` to the last position: the block `l2` slides
down one slot and the moved record is appended. -/
def moveLastList (base : Nat) (l1 : List LoadCommand) (lc : LoadCommand)
    (l2 : List LoadCommand) : List LoadCommand :=
  l1 ++ slideAssign (base + sumCmdsizes l1) l2 ++
    [movedLC lc (base + sumCmdsizes l1 + sumCmdsizes l2)]

/-- A thin container of `2^32 − 8` bytes of 9s with alignment exponent 0:
accepted by `open` (the size is within the limit), but
`file_size + round_up(8, 2^0) = 2^32` wraps to 0 in the `uint32`
argument of `ftruncate(fd, file_size + offset)`. -/
def exC5big : MachOState :=
  ⟨⟨fun _ => 9, 2 ^ 32 - 8⟩, 2 ^ 32 - 8, false, FAT_CIGAM, 1,
   [⟨⟨7, 3, 0, 2 ^ 32 - 8, 0⟩, ⟨MH_MAGIC, 7, 3, 2, 0, 0, 0⟩, []⟩]⟩

/-! # Theorems

File-model reading lemmas first, then the helper lemmas and the claim
theorems. -/

theorem read_ftruncate (f : FileData) (n p : Nat) :
    (ftruncate f n).read p = if p < n then f.read p else 0 := by
  simp [ftruncate, FileData.read]

theorem read_fwriteBytes (f : FileData) (off : Nat) (bs : List Nat) (p : Nat) :
    (fwriteBytes f off bs).read p =
      if off ≤ p ∧ p < off + bs.length then bs.getD (p - off) 0 else f.read p := by
  unfold fwriteBytes FileData.read
  by_cases h : off ≤ p ∧ p < off + bs.length
  · simp only [h, if_true]
    have : p < max f.size (off + bs.length) := lt_max_of_lt_right h.2
    simp [this]
  · simp only [h, if_false]
    by_cases h2 : p < max f.size (off + bs.length)
    · simp [h2, FileData.read]
    · have hs : ¬ p < f.size := fun hc => h2 (lt_max_of_lt_left hc)
      simp [h2, FileData.read, hs]

theorem read_fzero (f : FileData) (off len p : Nat) :
    (fzero f off len).read p =
      if off ≤ p ∧ p < off + len then 0 else f.read p := by
  unfold fzero FileData.read
  by_cases h : off ≤ p ∧ p < off + len
  · have : p < max f.size (off + len) := lt_max_of_lt_right h.2
    simp [h, this]
  · simp only [h, if_false]
    by_cases h2 : p < max f.size (off + len)
    · simp [h2, FileData.read]
    · have hs : ¬ p < f.size := fun hc => h2 (lt_max_of_lt_left hc)
      simp [h2, FileData.read, hs]

theorem read_fmove (f : FileData) (dst src len p : Nat) :
    (fmove f dst src len).read p =
      if dst ≤ p ∧ p < dst + len then f.read (src + (p - dst)) else f.read p := by
  unfold fmove FileData.read
  by_cases h : dst ≤ p ∧ p < dst + len
  · have : p < max f.size (dst + len) := lt_max_of_lt_right h.2
    simp [h, this, FileData.read]
  · simp only [h, if_false]
    by_cases h2 : p < max f.size (dst + len)
    · simp [h2, FileData.read]
    · have hs : ¬ p < f.size := fun hc => h2 (lt_max_of_lt_left hc)
      simp [h2, FileData.read, hs]

theorem read_fcpy (f : FileData) (dstoff : Nat) (src : FileData) (srcoff len p : Nat) :
    (fcpy f dstoff src srcoff len).read p =
      if dstoff ≤ p ∧ p < dstoff + len then src.read (srcoff + (p - dstoff)) else f.read p := by
  unfold fcpy FileData.read
  by_cases h : dstoff ≤ p ∧ p < dstoff + len
  · have : p < max f.size (dstoff + len) := lt_max_of_lt_right h.2
    simp [h, this, FileData.read]
  · simp only [h, if_false]
    by_cases h2 : p < max f.size (dstoff + len)
    · simp [h2, FileData.read]
    · have hs : ¬ p < f.size := fun hc => h2 (lt_max_of_lt_left hc)
      simp [h2, FileData.read, hs]

theorem size_ftruncate (f : FileData) (n : Nat) : (ftruncate f n).size = n := rfl

theorem size_fwriteBytes (f : FileData) (off : Nat) (bs : List Nat) :
    (fwriteBytes f off bs).size = max f.size (off + bs.length) := rfl

theorem size_fzero (f : FileData) (off len : Nat) :
    (fzero f off len).size = max f.size (off + len) := rfl

theorem size_fmove (f : FileData) (dst src len : Nat) :
    (fmove f dst src len).size = max f.size (dst + len) := rfl

theorem size_fcpy (f : FileData) (dstoff : Nat) (src : FileData) (srcoff len : Nat) :
    (fcpy f dstoff src srcoff len).size = max f.size (dstoff + len) := rfl


/-! ## Claim C1 -/

/-- Claim C1 (code bug): on a slice whose load commands are a `__TEXT`
segment followed by the code signature, the scan of
`remove_codesignature` selects the `__TEXT` segment as the `__LINKEDIT`
segment, although its 16-byte `segname` differs from `"__LINKEDIT"` — the
inverted `strncmp` test selects exactly the segments whose name DIFFERS,
contradicting the claim that only a segment whose `segname` equals
`"__LINKEDIT"` is ever selected. -/
theorem c1_code_bug_eval :
    (scanLCs [lcSegText, lcCodesig]).linkedit = some 0 ∧
    ([lcSegText, lcCodesig].getD 0 default).cmd = LC_SEGMENT ∧
    segnameIsLinkedit ([lcSegText, lcCodesig].getD 0 default).raw_lc = false := by
  decide

/-! ## Claim C3 -/

set_option maxRecDepth 40000 in
/-- Claim C3 (code bug): `exThin` has NO segment named `__LINKEDIT`
(its only segment is `__TEXT`), so the claim requires
`remove_codesignature` to return false and mutate nothing; the code instead
returns true and shrinks the tracked file size from 128 to 96, because the
inverted `strncmp` accepted the `__TEXT` segment as `__LINKEDIT`. -/
theorem c3_code_bug_eval :
    ((exThin.archs.getD 0 default).load_commands.all
      fun lc => !segnameIsLinkedit lc.raw_lc) = true ∧
    archInv exThin.file (exThin.archs.getD 0 default) ∧
    (remove_codesignature exThin 0).1 = true ∧
    exThin.file_size = 128 ∧
    (remove_codesignature exThin 0).2.file_size = 96 := by
  decide

/-! ## Claim C2: counterexample -/

/-- Claim C2 is false as stated: `exMove3` satisfies the invariant
(`Σ cmdsize = sizeofcmds`, `count = ncmds`, contiguous `file_offset`s,
list bytes on disk), but after the load-command mutation
`move_load_command(0, 0, 1)` the invariant fails — the in-memory list is
reordered by erase-and-push-to-end while the bytes were written at the slot
positions, so the second record's `file_offset` is no longer the header end
plus the prior `cmdsize`s. -/
theorem c2_counterexample :
    archInv exMove3.file (exMove3.archs.getD 0 default) ∧
    archWf (exMove3.archs.getD 0 default) ∧
    ¬ archInv (move_load_command exMove3 0 0 1).file
        ((move_load_command exMove3 0 0 1).archs.getD 0 default) := by
  decide

/-! ## Claim C6: counterexample -/

/-- Claim C6 is false as stated: on a consistent slice with THREE load
commands, `move_load_command(0, 0, 1)` followed by
`move_load_command(0, 1, 0)` does not restore the file — the second call is
argument-normalized to the same forward move and acts on the
erase-and-pushed list, leaving different bytes (the byte at offset 28
changes from 1 to 3). -/
theorem c6_counterexample :
    archInv exMove3.file (exMove3.archs.getD 0 default) ∧
    archWf (exMove3.archs.getD 0 default) ∧
    ¬ sameFile
        (move_load_command (move_load_command exMove3 0 0 1) 0 1 0).file
        exMove3.file := by
  decide

/-! ## Claim C4: counterexample -/

set_option maxRecDepth 40000 in
/-- Claim C4 is false as stated: on the fat container `exFat` the FIRST of
two slices carries the signature; `remove_codesignature 0` succeeds and the
signature's `datasize` is 32, yet the total file does not shrink at all —
`write_fat_archs` truncates to `last.offset + last.size`, which the edit of
a non-last slice leaves unchanged. -/
theorem c4_counterexample :
    archInv exFat.file (exFat.archs.getD 0 default) ∧
    (remove_codesignature exFat 0).1 = true ∧
    SWAP32 (read32 ((exFat.archs.getD 0 default).load_commands.getD 1 default).raw_lc 12)
      (exFat.archs.getD 0 default).mach_header.magic = 32 ∧
    ((remove_codesignature exFat 0).2.archs.getD 0 default).fat_arch.size = 96 ∧
    (remove_codesignature exFat 0).2.file_size = exFat.file_size ∧
    (remove_codesignature exFat 0).2.file.size = exFat.file.size := by
  decide

/-! ## Claim C7 -/

/-- Claim C7 (code bug): inserting the donor's slice (entry offset 32,
size 16, bytes 9) into the recipient fills the destination range `[64, 80)`
with the DONOR FILE'S FIRST 16 BYTES (7s) — `fcpy(file, offset,
macho.file, 0, size)` reads from donor offset 0 — instead of the slice
bytes at the donor entry's offset 32 (9s).  The final size does equal
`offset + size = 80` (via the `write_fat_archs` truncation). -/
theorem c7_code_bug_eval :
    (exDonor.archs.getD 0 default).fat_arch.offset = 32 ∧
    (insert_arch_from_macho exRcpt exDonor 0).file.read 70 = 7 ∧
    exDonor.file.read (32 + (70 - 64)) = 9 ∧
    (insert_arch_from_macho exRcpt exDonor 0).file.read 70 ≠
      exDonor.file.read (32 + (70 - 64)) ∧
    (insert_arch_from_macho exRcpt exDonor 0).file_size = 80 := by
  decide

/-! ## Claim C8 -/

/-- Claim C8 (code bug): `make_fat` on the 32-byte thin file of 9s
(`header_reserve = round_up(8, 2^5) = 32`) grows the file to 64 and moves
the content to offset 32, but zeroes NOTHING — `fzero(file, offset, 0)`
passes a zero length — and writes neither fat header nor fat entry, since
`write_fat_header` and `write_fat_archs` run while `is_fat` is still
false: every byte of the gap `[0, 32)` still holds the old content (9),
where the claim requires zeros (and the fat header over the gap's start). -/
theorem c8_code_bug_eval :
    (make_fat exC8).file_size = 64 ∧
    (make_fat exC8).file.read 32 = 9 ∧
    (make_fat exC8).file.read 63 = 9 ∧
    (make_fat exC8).file.read 0 = 9 ∧
    (make_fat exC8).file.read 28 = 9 := by
  decide

/-! ## Claim C9: counterexample -/

/-- Claim C9 is false as stated: a file of `2^32` bytes whose first four
bytes are no recognized magic is rejected with `FileTooLarge`, not
`UnknownMagic` — the constructor tests the size limit (line 31) before it
reads and validates the magic (line 40). -/
theorem c9_counterexample :
    openValidate exBigFile = Except.error OpenError.FileTooLarge ∧
    isMagic (fileMagic exBigFile) = false ∧
    2 ^ 32 - 1 < exBigFile.size := by
  refine ⟨rfl, by decide, by decide⟩

/-! ## Claim C10 -/

theorem scanStep_codesig (i : Nat) (lc : LoadCommand) (r : ScanResult) :
    (scanStep i lc r).codesig =
      if lc.cmd = LC_CODE_SIGNATURE then some i else r.codesig := by
  unfold scanStep
  by_cases h1 : lc.cmd = LC_CODE_SIGNATURE
  · rw [if_pos h1, if_pos h1]
  · rw [if_neg h1, if_neg h1]
    by_cases h2 : lc.cmd = LC_SEGMENT ∨ lc.cmd = LC_SEGMENT_64
    · rw [if_pos h2]
      by_cases h3 : segnameIsLinkedit lc.raw_lc = true
      · rw [if_pos h3]
      · rw [if_neg h3]
    · rw [if_neg h2]
      by_cases h4 : lc.cmd = LC_SYMTAB
      · rw [if_pos h4]
      · rw [if_neg h4]

theorem scanAux_codesig_spec :
    ∀ (lcs : List LoadCommand) (i0 : Nat) (r : ScanResult) (i : Nat),
    (scanLCsAux i0 lcs r).codesig = some i →
    (i0 ≤ i ∧ i < i0 + lcs.length ∧
      (lcs.getD (i - i0) default).cmd = LC_CODE_SIGNATURE ∧
      ∀ j, i - i0 < j → j < lcs.length → (lcs.getD j default).cmd ≠ LC_CODE_SIGNATURE) ∨
    (r.codesig = some i ∧ ∀ j, j < lcs.length → (lcs.getD j default).cmd ≠ LC_CODE_SIGNATURE)
  | [], _, _, _, h => Or.inr ⟨h, by intro j hj; simp at hj⟩
  | lc :: rest, i0, r, i, h => by
      have ih := scanAux_codesig_spec rest (i0 + 1) (scanStep i0 lc r) i h
      rcases ih with ⟨h1, h2, h3, h4⟩ | ⟨h1, h2⟩
      · left
        refine ⟨by omega, by simp only [List.length_cons]; omega, ?_, ?_⟩
        · have hi : i - i0 = (i - (i0 + 1)) + 1 := by omega
          rw [hi, List.getD_cons_succ]
          exact h3
        · intro j hj hjlen
          have hj0 : j = (j - 1) + 1 := by omega
          rw [hj0, List.getD_cons_succ]
          refine h4 (j - 1) (by omega) ?_
          simp only [List.length_cons] at hjlen
          omega
      · rw [scanStep_codesig] at h1
        by_cases hcs : lc.cmd = LC_CODE_SIGNATURE
        · rw [if_pos hcs] at h1
          have hii : i = i0 := by
            have := h1
            simp at this
            omega
          left
          refine ⟨by omega, by simp only [List.length_cons]; omega, ?_, ?_⟩
          · have : i - i0 = 0 := by omega
            rw [this, List.getD_cons_zero]
            exact hcs
          · intro j hj hjlen
            have hj0 : j = (j - 1) + 1 := by omega
            rw [hj0, List.getD_cons_succ]
            refine h2 (j - 1) ?_
            simp only [List.length_cons] at hjlen
            omega
        · rw [if_neg hcs] at h1
          right
          refine ⟨h1, ?_⟩
          intro j hjlen
          rcases Nat.eq_zero_or_pos j with hj0 | hj0
          · rw [hj0, List.getD_cons_zero]
            exact hcs
          · have hj1 : j = (j - 1) + 1 := by omega
            rw [hj1, List.getD_cons_succ]
            refine h2 (j - 1) ?_
            simp only [List.length_cons] at hjlen
            omega

/-- The scan of `remove_codesignature` remembers the LAST
`LC_CODE_SIGNATURE` in list order. -/
theorem scan_codesig_greatest (lcs : List LoadCommand) (i : Nat)
    (h : (scanLCs lcs).codesig = some i) :
    i < lcs.length ∧ (lcs.getD i default).cmd = LC_CODE_SIGNATURE ∧
      ∀ j, i < j → j < lcs.length → (lcs.getD j default).cmd ≠ LC_CODE_SIGNATURE := by
  have hh := scanAux_codesig_spec lcs 0 ⟨none, none, none⟩ i h
  rcases hh with ⟨_, h2, h3, h4⟩ | ⟨h1, _⟩
  · have hz : i - 0 = i := by omega
    rw [hz] at h3 h4
    exact ⟨by omega, h3, h4⟩
  · exact absurd h1 (by simp)

set_option maxRecDepth 40000 in
/-- Claim C10 (confirmed): with more than one `LC_CODE_SIGNATURE` present,
`remove_codesignature` reports no error on that account — the scan keeps
the LAST such command in list order (first conjunct, for every list), and
on the concrete two-signature slice `exTwoCS` the operation succeeds,
validates and reduces by the LAST signature's `dataoff`/`datasize`
(128 + 32 = slice size 160, reduction 32 although the first signature's
`dataoff + datasize = 10` does not match), and removes exactly that last
command, leaving the first signature record in place. -/
theorem c10_last_codesig_used :
    (∀ (lcs : List LoadCommand) (i : Nat), (scanLCs lcs).codesig = some i →
      i < lcs.length ∧ (lcs.getD i default).cmd = LC_CODE_SIGNATURE ∧
      ∀ j, i < j → j < lcs.length → (lcs.getD j default).cmd ≠ LC_CODE_SIGNATURE) ∧
    (scanLCs (exTwoCS.archs.getD 0 default).load_commands).codesig = some 2 ∧
    read32 lcCsA.raw_lc 8 + read32 lcCsA.raw_lc 12 ≠
      (exTwoCS.archs.getD 0 default).fat_arch.size ∧
    (remove_codesignature exTwoCS 0).1 = true ∧
    ((remove_codesignature exTwoCS 0).2.archs.getD 0 default).fat_arch.size = 128 ∧
    ((remove_codesignature exTwoCS 0).2.archs.getD 0 default).load_commands.map
      (fun lc => lc.cmd) = [LC_SEGMENT, LC_CODE_SIGNATURE] ∧
    ((remove_codesignature exTwoCS 0).2.archs.getD 0 default).load_commands.getD 1 default =
      lcCsA :=
  ⟨scan_codesig_greatest, by decide⟩

/-- Witness for C10: the universally quantified conjunct applied at the
concrete one-element list `[lcCsA]`. -/
theorem c10_witness :
    0 < [lcCsA].length ∧ ([lcCsA].getD 0 default).cmd = LC_CODE_SIGNATURE ∧
      ∀ j, 0 < j → j < [lcCsA].length → ([lcCsA].getD j default).cmd ≠ LC_CODE_SIGNATURE :=
  c10_last_codesig_used.1 [lcCsA] 0 (by decide)

/-! ## Claim C5 -/

/-- Claim C5 amended (the positive part): for every thin container (one
arch whose fat entry matches the tracked file size) with
`file_size + round_up(sizeof(fat_header), 2^align) < 2^32`, `make_fat()`
followed by `make_thin(0)` yields a byte-identical file with the original
size.  (This holds even though `make_fat` writes no fat header —
`make_thin` copies the slice bytes back from `header_reserve` and
truncates to the slice size.)  The bound is necessary: `ftruncate` takes
the sum as a `uint32` (macho.cpp:172), so when it reaches `2^32` the
size wraps, the content is destroyed and the round trip fails — see
`c5_counterexample`. -/
theorem c5_roundtrip (s : MachOState) (a : MachOArch)
    (harchs : s.archs = [a]) (hfat : s.is_fat = false)
    (hsize : a.fat_arch.size = s.file_size)
    (hfsize : s.file.size = s.file_size)
    (hbound : s.file_size + roundUp fatHeaderSize (2 ^ a.fat_arch.align) < 2 ^ 32) :
    sameFile (make_thin (make_fat s) 0).file s.file ∧
    (make_thin (make_fat s) 0).file_size = s.file_size := by
  rcases s with ⟨f, fs, isf, fm, na, ar⟩
  simp only at harchs hsize hfsize hbound
  subst harchs
  simp only at hfat
  subst hfat
  subst hsize
  simp only [fatHeaderSize] at hbound
  simp only [make_fat, make_thin, write_fat_header, write_fat_archs, fatHeaderSize,
    List.getD_cons_zero, List.set_cons_zero, ite_true, ite_false, ne_eq,
    eq_self_iff_true, not_true_eq_false, if_false, Nat.mod_eq_of_lt hbound]
  refine ⟨⟨?_, ?_⟩, trivial⟩
  · rw [size_ftruncate, hfsize]
  · intro p hp
    rw [size_ftruncate] at hp
    rw [read_ftruncate, if_pos hp, read_fmove]
    have c1 : 0 ≤ p ∧ p < 0 + a.fat_arch.size := ⟨Nat.zero_le _, by omega⟩
    rw [if_pos c1, read_fzero]
    have c2 : ¬(roundUp 8 (2 ^ a.fat_arch.align) ≤ roundUp 8 (2 ^ a.fat_arch.align) + (p - 0) ∧
        roundUp 8 (2 ^ a.fat_arch.align) + (p - 0) < roundUp 8 (2 ^ a.fat_arch.align) + 0) := by
      omega
    rw [if_neg c2, read_fmove]
    have c3 : roundUp 8 (2 ^ a.fat_arch.align) ≤ roundUp 8 (2 ^ a.fat_arch.align) + (p - 0) ∧
        roundUp 8 (2 ^ a.fat_arch.align) + (p - 0) <
          roundUp 8 (2 ^ a.fat_arch.align) + a.fat_arch.size := by
      omega
    rw [if_pos c3, read_ftruncate]
    have c4 : 0 + (roundUp 8 (2 ^ a.fat_arch.align) + (p - 0) - roundUp 8 (2 ^ a.fat_arch.align)) <
        a.fat_arch.size + roundUp 8 (2 ^ a.fat_arch.align) := by omega
    rw [if_pos c4]
    have hpp : 0 + (roundUp 8 (2 ^ a.fat_arch.align) + (p - 0) -
        roundUp 8 (2 ^ a.fat_arch.align)) = p := by omega
    rw [hpp]

/-- Witness for C5: the round trip evaluated on the concrete 4-byte thin
file `exC5`. -/
theorem c5_witness :
    sameFile (make_thin (make_fat exC5) 0).file exC5.file ∧
    (make_thin (make_fat exC5) 0).file_size = exC5.file_size :=
  c5_roundtrip exC5 ⟨⟨7, 3, 0, 4, 0⟩, ⟨MH_MAGIC, 7, 3, 2, 0, 0, 0⟩, []⟩
    rfl rfl rfl rfl (by decide)

/-- Counterexample for C5: on the accepted thin container `exC5big` of
`2^32 − 8` bytes of 9s, `file_size + round_up(8, 2^0) = 2^32` wraps to 0
in the `uint32` argument of `ftruncate(fd, file_size + offset)`
(macho.cpp:172), so the file is truncated to nothing before the move:
the round trip turns byte 100 from 9 into 0 and the files differ. -/
theorem c5_counterexample :
    exC5big.file.read 100 = 9 ∧
    (make_thin (make_fat exC5big) 0).file.read 100 = 0 ∧
    ¬ sameFile (make_thin (make_fat exC5big) 0).file exC5big.file :=
  ⟨by decide, by decide, fun h => absurd (h.2 100 (by decide)) (by decide)⟩

theorem getD_set_self {α : Type} [Inhabited α] (l : List α) (i : Nat) (x : α)
    (h : i < l.length) : (l.set i x).getD i default = x := by
  simp [List.getD_eq_getElem?_getD, List.getElem?_set_self', h]

/-! ## Claim C9: amended -/

/-- Claim C9 amended: the constructor validates the SIZE LIMIT before the
magic: `FileTooLarge` is reported exactly for files larger than `2^32 − 1`
(whatever their first four bytes), and `UnknownMagic` exactly for files
within the size limit whose first four bytes match no recognized magic. -/
theorem c9_amended (f : FileData) :
    (openValidate f = Except.error OpenError.FileTooLarge ↔ 2 ^ 32 - 1 < f.size) ∧
    ((∃ m, openValidate f = Except.error (OpenError.UnknownMagic m)) ↔
      f.size ≤ 2 ^ 32 - 1 ∧ isMagic (fileMagic f) = false) := by
  constructor
  · constructor
    · intro h
      by_contra hn
      rw [openValidate, if_neg hn] at h
      by_cases h2 : isMagic (fileMagic f) = false
      · rw [if_pos h2] at h
        simp at h
      · rw [if_neg h2] at h
        simp at h
    · intro h
      rw [openValidate, if_pos h]
  · constructor
    · rintro ⟨m, hm⟩
      by_cases h1 : 2 ^ 32 - 1 < f.size
      · rw [openValidate, if_pos h1] at hm
        simp at hm
      · refine ⟨Nat.not_lt.mp h1, ?_⟩
        rw [openValidate, if_neg h1] at hm
        by_cases h2 : isMagic (fileMagic f) = false
        · exact h2
        · rw [if_neg h2] at hm
          simp at hm
    · rintro ⟨hle, hmagic⟩
      exact ⟨fileMagic f, by rw [openValidate, if_neg (Nat.not_lt.mpr hle), if_pos hmagic]⟩

/-- Witness for C9: the size limit fires on the oversized file with an
unrecognized magic. -/
theorem c9_witness : openValidate exBigFile = Except.error OpenError.FileTooLarge :=
  (c9_amended exBigFile).1.mpr (by decide)

theorem sumCmdsizes_nil : sumCmdsizes [] = 0 := rfl

theorem sumCmdsizes_cons (lc : LoadCommand) (l : List LoadCommand) :
    sumCmdsizes (lc :: l) = lc.cmdsize + sumCmdsizes l := by
  simp [sumCmdsizes]

theorem sumCmdsizes_append (l1 l2 : List LoadCommand) :
    sumCmdsizes (l1 ++ l2) = sumCmdsizes l1 + sumCmdsizes l2 := by
  simp [sumCmdsizes]

theorem sumCmdsizes_slideAssign : ∀ (off : Nat) (l : List LoadCommand),
    sumCmdsizes (slideAssign off l) = sumCmdsizes l
  | _, [] => rfl
  | off, lc :: rest => by
      simp [slideAssign, sumCmdsizes_cons, sumCmdsizes_slideAssign (off + lc.cmdsize) rest]

theorem length_slideAssign : ∀ (off : Nat) (l : List LoadCommand),
    (slideAssign off l).length = l.length
  | _, [] => rfl
  | off, lc :: rest => by
      simp [slideAssign, length_slideAssign (off + lc.cmdsize) rest]

theorem lcLayout_append : ∀ (l1 : List LoadCommand) (off : Nat) (l2 : List LoadCommand),
    lcLayout off (l1 ++ l2) ↔ lcLayout off l1 ∧ lcLayout (off + sumCmdsizes l1) l2
  | [], off, l2 => by simp [lcLayout, sumCmdsizes_nil]
  | lc :: rest, off, l2 => by
      have h := lcLayout_append rest (off + lc.cmdsize) l2
      constructor
      · rintro ⟨h1, h2⟩
        rcases h.mp h2 with ⟨h3, h4⟩
        refine ⟨⟨h1, h3⟩, ?_⟩
        rw [sumCmdsizes_cons, ← Nat.add_assoc]
        exact h4
      · rintro ⟨⟨h1, h3⟩, h4⟩
        refine ⟨h1, h.mpr ⟨h3, ?_⟩⟩
        rw [sumCmdsizes_cons, ← Nat.add_assoc] at h4
        exact h4

theorem lcLayout_slideAssign : ∀ (off : Nat) (l : List LoadCommand),
    lcLayout off (slideAssign off l)
  | _, [] => trivial
  | off, lc :: rest => ⟨rfl, lcLayout_slideAssign (off + lc.cmdsize) rest⟩

theorem lcLayout_bounds : ∀ (l : List LoadCommand) (off : Nat), lcLayout off l →
    ∀ lc ∈ l, off ≤ lc.file_offset ∧ lc.file_offset + lc.cmdsize ≤ off + sumCmdsizes l
  | [], _, _, lc, hm => by simp at hm
  | x :: rest, off, h, lc, hm => by
      rcases List.mem_cons.mp hm with rfl | hm2
      · rw [h.1, sumCmdsizes_cons]
        omega
      · have := lcLayout_bounds rest (off + x.cmdsize) h.2 lc hm2
        rw [sumCmdsizes_cons]
        omega

theorem lcLayout_getLast : ∀ (l : List LoadCommand) (off : Nat), lcLayout off l → l ≠ [] →
    (l.getLast?.getD default).file_offset + (l.getLast?.getD default).cmdsize =
      off + sumCmdsizes l
  | [], _, _, hne => absurd rfl hne
  | [x], off, h, _ => by
      simp only [List.getLast?_singleton, Option.getD_some, sumCmdsizes_cons, sumCmdsizes_nil]
      rw [h.1]
      omega
  | x :: y :: rest, off, h, _ => by
      have := lcLayout_getLast (y :: rest) (off + x.cmdsize) h.2 (by simp)
      simp only [List.getLast?_cons_cons] at this ⊢
      rw [sumCmdsizes_cons]
      omega

theorem slide_fst : ∀ (bl : List LoadCommand) (f : FileData) (off : Nat),
    (slideLCs bl f off).1 = slideAssign off bl
  | [], _, _ => rfl
  | lc :: rest, f, off => by
      simp [slideLCs, slideAssign, slide_fst rest (fwriteBytes f off lc.raw_lc) (off + lc.cmdsize)]

theorem slide_endoff : ∀ (bl : List LoadCommand) (f : FileData) (off : Nat),
    (slideLCs bl f off).2.2 = off + sumCmdsizes bl
  | [], _, _ => by simp [slideLCs, sumCmdsizes_nil]
  | lc :: rest, f, off => by
      simp only [slideLCs, slide_endoff rest (fwriteBytes f off lc.raw_lc) (off + lc.cmdsize),
        sumCmdsizes_cons]
      omega

theorem slide_read_below : ∀ (bl : List LoadCommand) (f : FileData) (off p : Nat), p < off →
    (slideLCs bl f off).2.1.read p = f.read p
  | [], _, _, _, _ => rfl
  | lc :: rest, f, off, p, hp => by
      simp only [slideLCs]
      rw [slide_read_below rest (fwriteBytes f off lc.raw_lc) (off + lc.cmdsize) p (by omega),
        read_fwriteBytes, if_neg (by omega)]

theorem slide_diskHas : ∀ (bl : List LoadCommand) (f : FileData) (off : Nat),
    (∀ lc ∈ bl, lc.raw_lc.length = lc.cmdsize) →
    ∀ lc' ∈ slideAssign off bl, diskHas (slideLCs bl f off).2.1 lc'
  | [], _, _, _, lc', hm => by simp [slideAssign] at hm
  | lc :: rest, f, off, hwf, lc', hm => by
      simp only [slideAssign, List.mem_cons] at hm
      rcases hm with rfl | hm2
      · intro k hk
        simp only at hk ⊢
        have hlen : lc.raw_lc.length = lc.cmdsize := hwf lc (by simp)
        simp only [slideLCs]
        rw [slide_read_below rest (fwriteBytes f off lc.raw_lc) (off + lc.cmdsize)
            (off + k) (by omega),
          read_fwriteBytes, if_pos (by omega)]
        congr 1
        omega
      · have := slide_diskHas rest (fwriteBytes f off lc.raw_lc) (off + lc.cmdsize)
          (fun x hx => hwf x (by simp [hx])) lc' hm2
        simpa [slideLCs] using this

theorem getD_append_length (l1 : List LoadCommand) (lc : LoadCommand) (l2 : List LoadCommand) :
    (l1 ++ lc :: l2).getD l1.length default = lc := by
  rw [List.getD_eq_getElem?_getD, List.getElem?_append_right (Nat.le_refl _)]
  simp

theorem take_append_length (l1 : List LoadCommand) (lc : LoadCommand) (l2 : List LoadCommand) :
    (l1 ++ lc :: l2).take l1.length = l1 := by
  rw [List.take_left]

theorem drop_append_length_succ (l1 : List LoadCommand) (lc : LoadCommand)
    (l2 : List LoadCommand) :
    (l1 ++ lc :: l2).drop (l1.length + 1) = l2 := by
  have h : l1 ++ lc :: l2 = (l1 ++ [lc]) ++ l2 := by simp
  have hl : (l1 ++ [lc]).length = l1.length + 1 := by simp
  rw [h, ← hl, List.drop_left]

/-- `moveCore` between the last two positions, in closed form: the two
records swap on disk (the second is slid down, the first rewritten after
it) and the in-memory list gets the slid record followed by the moved one
pushed at the end. -/
theorem moveCore_last_pair (s : MachOState) (ai : Nat) (l1 : List LoadCommand)
    (a b : LoadCommand)
    (hlcs : (s.archs.getD ai default).load_commands = l1 ++ [a, b]) :
    moveCore s ai l1.length (l1.length + 1) =
      {s with
        file := fwriteBytes (fwriteBytes s.file a.file_offset b.raw_lc)
          (a.file_offset + b.cmdsize) a.raw_lc,
        archs := s.archs.set ai
          {s.archs.getD ai default with load_commands :=
            l1 ++ [{b with file_offset := a.file_offset},
                   {a with file_offset := a.file_offset + b.cmdsize}]}} := by
  have hget : (s.archs.getD ai default).load_commands.getD l1.length default = a := by
    rw [hlcs]
    exact getD_append_length l1 a [b]
  have hblock : ((s.archs.getD ai default).load_commands.drop (l1.length + 1)).take
      (l1.length + 1 - l1.length) = [b] := by
    rw [hlcs, drop_append_length_succ l1 a [b], Nat.add_sub_cancel_left]
    rfl
  have htake : (s.archs.getD ai default).load_commands.take l1.length = l1 := by
    rw [hlcs]
    exact take_append_length l1 a [b]
  have hdrop2 : (s.archs.getD ai default).load_commands.drop (l1.length + 1 + 1) = [] := by
    rw [hlcs, show l1.length + 1 + 1 = l1.length + [a, b].length from rfl,
      ← List.length_append]
    exact List.drop_length _
  rw [moveCore]
  simp only [hget, hblock, htake, hdrop2, slideLCs, List.append_nil, List.nil_append,
    List.cons_append, List.append_assoc]

/-- Two successive `moveCore` calls on the last two positions leave, on
disk, first record then second record back at their original offsets. -/
theorem moveCore_last_pair_twice (s : MachOState) (ai : Nat) (l1 : List LoadCommand)
    (a b : LoadCommand) (hai : ai < s.archs.length)
    (hlcs : (s.archs.getD ai default).load_commands = l1 ++ [a, b]) :
    (moveCore (moveCore s ai l1.length (l1.length + 1)) ai l1.length (l1.length + 1)).file =
      fwriteBytes (fwriteBytes (fwriteBytes (fwriteBytes s.file a.file_offset b.raw_lc)
        (a.file_offset + b.cmdsize) a.raw_lc) a.file_offset a.raw_lc)
        (a.file_offset + a.cmdsize) b.raw_lc := by
  rw [moveCore_last_pair s ai l1 a b hlcs,
    moveCore_last_pair _ ai l1 {b with file_offset := a.file_offset}
      {a with file_offset := a.file_offset + b.cmdsize}
      (by dsimp only; rw [getD_set_self _ _ _ hai])]

/-! ## Claim C6: amended -/

/-- Claim C6 amended: `move_load_command(a, i, j)` followed by
`move_load_command(a, j, i)` restores the file byte-for-byte when `i = j`
(both calls are no-ops) and when `i` and `j` are the LAST TWO positions of
the slice's load-command list, in either order: the arguments are
normalized (macho.cpp:321–323) so both calls perform the same forward
move, and on the last two positions the erase-and-push-to-END list update
coincides with a genuine swap.  For other pairs of distinct indices the
round trip can fail (see the counterexample): the moved command is pushed
to the END of the in-memory list rather than to its target index, so the
second move rotates bytes instead of restoring them. -/
theorem c6_amended (s : MachOState) (ai : Nat) (l1 : List LoadCommand)
    (lc0 lc1 : LoadCommand)
    (hai : ai < s.archs.length)
    (hlcs : (s.archs.getD ai default).load_commands = l1 ++ [lc0, lc1])
    (hwf : archWf (s.archs.getD ai default))
    (hinv : archInv s.file (s.archs.getD ai default))
    (hroom : lc0.file_offset + lc0.cmdsize + lc1.cmdsize ≤ s.file.size) :
    (∀ i, move_load_command s ai i i = s) ∧
    (∀ i j, move_load_command s ai i j = move_load_command s ai j i) ∧
    sameFile (move_load_command (move_load_command s ai l1.length (l1.length + 1)) ai
      (l1.length + 1) l1.length).file s.file := by
  refine ⟨?_, ?_, ?_⟩
  · intro i
    rw [move_load_command, if_pos rfl]
  · intro i j
    rw [move_load_command, move_load_command]
    rcases Nat.lt_trichotomy i j with h | h | h
    · rw [if_neg (by omega), if_neg (by omega), if_neg (by omega), if_pos h]
    · subst h
      rw [if_pos rfl]
    · rw [if_neg (by omega), if_pos h, if_neg (by omega), if_neg (by omega)]
  · have hmem0 : lc0 ∈ (s.archs.getD ai default).load_commands := by rw [hlcs]; simp
    have hmem1 : lc1 ∈ (s.archs.getD ai default).load_commands := by rw [hlcs]; simp
    have hr0 : lc0.raw_lc.length = lc0.cmdsize := (hwf.1 lc0 hmem0).1
    have hr1 : lc1.raw_lc.length = lc1.cmdsize := (hwf.1 lc1 hmem1).1
    obtain ⟨-, -, hlay, hdisk⟩ := hinv
    rw [hlcs] at hlay
    rcases (lcLayout_append l1 _ [lc0, lc1]).mp hlay with ⟨-, hlay2⟩
    simp only [lcLayout] at hlay2
    have hoff : lc1.file_offset = lc0.file_offset + lc0.cmdsize := by
      obtain ⟨h0, h1, -⟩ := hlay2
      omega
    have hd0 := hdisk lc0 hmem0
    have hd1 := hdisk lc1 hmem1
    have e1 : move_load_command s ai l1.length (l1.length + 1) =
        moveCore s ai l1.length (l1.length + 1) := by
      rw [move_load_command, if_neg (by omega), if_neg (by omega)]
    have e2 : ∀ t, move_load_command t ai (l1.length + 1) l1.length =
        moveCore t ai l1.length (l1.length + 1) := by
      intro t
      rw [move_load_command, if_neg (by omega), if_pos (by omega)]
    rw [e1, e2, moveCore_last_pair_twice s ai l1 lc0 lc1 hai hlcs]
    have hsz : (fwriteBytes (fwriteBytes (fwriteBytes (fwriteBytes s.file lc0.file_offset
        lc1.raw_lc) (lc0.file_offset + lc1.cmdsize) lc0.raw_lc) lc0.file_offset lc0.raw_lc)
        (lc0.file_offset + lc0.cmdsize) lc1.raw_lc).size = s.file.size := by
      simp only [size_fwriteBytes, hr0, hr1]
      omega
    refine ⟨hsz, ?_⟩
    intro p hp
    rw [hsz] at hp
    simp only [read_fwriteBytes, hr0, hr1]
    by_cases hA : lc0.file_offset ≤ p ∧ p < lc0.file_offset + lc0.cmdsize
    · rw [if_neg (by omega), if_pos hA]
      have hd := hd0 (p - lc0.file_offset) (by rw [hr0]; omega)
      rw [show lc0.file_offset + (p - lc0.file_offset) = p from by omega] at hd
      exact hd.symm
    · by_cases hB : lc0.file_offset + lc0.cmdsize ≤ p ∧
          p < lc0.file_offset + lc0.cmdsize + lc1.cmdsize
      · rw [if_pos hB]
        have hd := hd1 (p - (lc0.file_offset + lc0.cmdsize)) (by rw [hr1]; omega)
        rw [hoff] at hd
        rw [show lc0.file_offset + lc0.cmdsize + (p - (lc0.file_offset + lc0.cmdsize)) = p
          from by omega] at hd
        exact hd.symm
      · rw [if_neg (by omega), if_neg (by omega), if_neg (by omega), if_neg (by omega)]

/-- Witness for C6: on the concrete three-command slice `exMove3`, moving
between the last two positions (indices 1 and 2) and back restores the
file byte-for-byte. -/
theorem c6_witness :
    sameFile (move_load_command (move_load_command exMove3 0 1 2) 0 2 1).file
      exMove3.file :=
  (c6_amended exMove3 0 [lcA] lcB lcC (by decide) rfl (by decide) (by decide)
    (by decide)).2.2

theorem sub32_eq (a b : Nat) (h1 : b ≤ a) (h2 : a < 2 ^ 32) : sub32 a b = a - b := by
  unfold sub32
  rw [Nat.mod_eq_of_lt (show b < 2 ^ 32 by omega),
    show a + 2 ^ 32 - b = a - b + 2 ^ 32 from by omega, Nat.add_mod_right,
    Nat.mod_eq_of_lt (show a - b < 2 ^ 32 by omega)]

theorem encodeMachHeader_length (mh : MachHeader) : (encodeMachHeader mh).length = 28 := by
  simp [encodeMachHeader, encode32]

theorem lc_update_self (lc : LoadCommand) : movedLC lc lc.file_offset = lc := by
  cases lc
  rfl

theorem arch_update_self (a : MachOArch) : archWithLCs a a.load_commands = a := by
  cases a
  rfl

theorem set_getD_self {α : Type} [Inhabited α] : ∀ (l : List α) (i : Nat), i < l.length →
    l.set i (l.getD i default) = l
  | [], i, h => by simp at h
  | x :: xs, 0, _ => by simp
  | x :: xs, i + 1, h => by
      simp only [List.getD_cons_succ, List.set_cons_succ, List.cons.injEq, true_and]
      exact set_getD_self xs i (by simpa using h)

theorem mem_slideAssign_shape : ∀ (l : List LoadCommand) (off : Nat) (y : LoadCommand),
    y ∈ slideAssign off l → ∃ z ∈ l, y.raw_lc = z.raw_lc ∧ y.cmdsize = z.cmdsize
  | [], _, y, h => by simp [slideAssign] at h
  | z :: rest, off, y, h => by
      simp only [slideAssign, List.mem_cons] at h
      rcases h with rfl | h2
      · exact ⟨z, by simp, rfl, rfl⟩
      · rcases mem_slideAssign_shape rest (off + z.cmdsize) y h2 with ⟨w, hw, h3, h4⟩
        exact ⟨w, by simp [hw], h3, h4⟩

theorem move_to_last_spec (s : MachOState) (ai : Nat) (l1 : List LoadCommand)
    (lc : LoadCommand) (l2 : List LoadCommand)
    (hai : ai < s.archs.length)
    (hlcs : (s.archs.getD ai default).load_commands = l1 ++ lc :: l2)
    (hwfraw : ∀ x ∈ (s.archs.getD ai default).load_commands, x.raw_lc.length = x.cmdsize)
    (hinv : archInv s.file (s.archs.getD ai default)) :
    (move_load_command s ai l1.length (l1.length + l2.length)).archs =
      s.archs.set ai (archWithLCs (s.archs.getD ai default)
        (moveLastList ((s.archs.getD ai default).fat_arch.offset + machHeaderSize) l1 lc l2)) ∧
    archInv (move_load_command s ai l1.length (l1.length + l2.length)).file
      (archWithLCs (s.archs.getD ai default)
        (moveLastList ((s.archs.getD ai default).fat_arch.offset + machHeaderSize) l1 lc l2)) ∧
    (move_load_command s ai l1.length (l1.length + l2.length)).file_size = s.file_size ∧
    (move_load_command s ai l1.length (l1.length + l2.length)).is_fat = s.is_fat := by
  have hlay := hinv.2.2.1
  rw [hlcs] at hlay
  rcases (lcLayout_append l1 _ (lc :: l2)).mp hlay with ⟨hlay1, hlay2⟩
  have hlcoff : lc.file_offset =
      (s.archs.getD ai default).fat_arch.offset + machHeaderSize + sumCmdsizes l1 := hlay2.1
  cases l2 with
  | nil =>
    have hnoop : move_load_command s ai l1.length (l1.length + ([] : List LoadCommand).length) =
        s := by
      rw [move_load_command, if_pos (by simp)]
    rw [hnoop]
    have hlist : moveLastList ((s.archs.getD ai default).fat_arch.offset + machHeaderSize)
        l1 lc [] = (s.archs.getD ai default).load_commands := by
      rw [hlcs, moveLastList]
      simp only [slideAssign, List.append_nil, sumCmdsizes_nil, Nat.add_zero]
      rw [← hlcoff, lc_update_self]
    rw [hlist, arch_update_self, set_getD_self s.archs ai hai]
    exact ⟨rfl, hinv, rfl, rfl⟩
  | cons x xs =>
    have hne : l1.length ≠ l1.length + (x :: xs).length := by simp
    have hnlt : ¬ (l1.length + (x :: xs).length < l1.length) := by omega
    rw [move_load_command, if_neg hne, if_neg hnlt, moveCore]
    simp only [hlcs, getD_append_length, drop_append_length_succ]
    have htake : (x :: xs).take (l1.length + (x :: xs).length - l1.length) = x :: xs := by
      simp
    have hdropall : (l1 ++ lc :: x :: xs).drop (l1.length + (x :: xs).length + 1) = [] := by
      have hlen : (l1 ++ lc :: x :: xs).length = l1.length + (x :: xs).length + 1 := by
        simp only [List.length_append, List.length_cons]
        omega
      rw [← hlen, List.drop_length]
    rw [htake, hdropall, take_append_length, slide_fst, slide_endoff]
    refine ⟨?_, ?_, trivial, trivial⟩
    · simp only [archWithLCs, moveLastList, movedLC, List.append_nil, List.nil_append, ← hlcoff]
    · have hs := hinv.1
      rw [hlcs] at hs
      have hn := hinv.2.1
      rw [hlcs] at hn
      have hwf2 : ∀ z ∈ (x :: xs), z.raw_lc.length = z.cmdsize := by
        intro z hz
        refine hwfraw z ?_
        rw [hlcs]
        simp [hz]
      refine ⟨?_, ?_, ?_, ?_⟩
      · simp only [archWithLCs, moveLastList, movedLC, sumCmdsizes_append,
          sumCmdsizes_slideAssign, sumCmdsizes_cons, sumCmdsizes_nil] at hs ⊢
        omega
      · simp only [archWithLCs, moveLastList, movedLC, List.length_append,
          length_slideAssign, List.length_cons, List.length_nil] at hn ⊢
        omega
      · simp only [archWithLCs, moveLastList, movedLC]
        rw [lcLayout_append, lcLayout_append]
        refine ⟨⟨hlay1, lcLayout_slideAssign _ _⟩, ?_⟩
        simp only [sumCmdsizes_append, sumCmdsizes_slideAssign, lcLayout, and_true]
        omega
      · simp only [archWithLCs, moveLastList, movedLC]
        intro y hy
        rw [← hlcoff] at hy
        rcases List.mem_append.mp hy with hy1 | hylast
        · rcases List.mem_append.mp hy1 with hyl1 | hyslide
          · -- y is an untouched prefix record
            have hmem : y ∈ (s.archs.getD ai default).load_commands := by
              rw [hlcs]
              simp [hyl1]
            have hd := hinv.2.2.2 y hmem
            have hb := lcLayout_bounds l1 _ hlay1 y hyl1
            have hyraw : y.raw_lc.length = y.cmdsize := hwfraw y hmem
            intro k hk
            rw [read_fwriteBytes, if_neg (by rw [← hlcoff] at hb; omega)]
            rw [slide_read_below _ _ _ _ (by rw [← hlcoff] at hb; omega)]
            exact hd k hk
          · -- y is a slid block record
            have hd := slide_diskHas (x :: xs) s.file lc.file_offset hwf2 y hyslide
            have hb := lcLayout_bounds _ _ (lcLayout_slideAssign lc.file_offset (x :: xs))
              y hyslide
            rw [sumCmdsizes_slideAssign] at hb
            have hyraw : y.raw_lc.length = y.cmdsize := by
              rcases mem_slideAssign_shape (x :: xs) lc.file_offset y hyslide with
                ⟨z, hz, hraw, hcs⟩
              rw [hraw, hcs]
              exact hwf2 z hz
            intro k hk
            rw [read_fwriteBytes, if_neg (by omega)]
            exact hd k hk
        · -- y is the moved record
          have hyeq : y = {lc with file_offset := lc.file_offset + sumCmdsizes (x :: xs)} := by
            simpa using hylast
          subst hyeq
          intro k hk
          simp only at hk ⊢
          rw [read_fwriteBytes, if_pos (by omega)]
          congr 1
          omega

theorem removeLast_inv (u : MachOState) (ai : Nat) (bl : List LoadCommand) (m : LoadCommand)
    (hai : ai < u.archs.length)
    (hlcs : (u.archs.getD ai default).load_commands = bl ++ [m])
    (hwfraw : ∀ x ∈ (u.archs.getD ai default).load_commands, x.raw_lc.length = x.cmdsize)
    (hsz : (u.archs.getD ai default).mach_header.sizeofcmds < 2 ^ 32)
    (hnc : (u.archs.getD ai default).mach_header.ncmds < 2 ^ 32)
    (hinv : archInv u.file (u.archs.getD ai default)) :
    archInv (removeLastLC u ai).file ((removeLastLC u ai).archs.getD ai default) ∧
    ((removeLastLC u ai).archs.getD ai default).load_commands.length = bl.length ∧
    (removeLastLC u ai).file_size = u.file_size := by
  have hs := hinv.1
  rw [hlcs, sumCmdsizes_append, sumCmdsizes_cons, sumCmdsizes_nil] at hs
  have hn := hinv.2.1
  rw [hlcs, List.length_append, List.length_cons, List.length_nil] at hn
  have hlay := hinv.2.2.1
  rw [hlcs] at hlay
  rcases (lcLayout_append bl _ [m]).mp hlay with ⟨hlayb, hlaym⟩
  have hmoff : m.file_offset =
      (u.archs.getD ai default).fat_arch.offset + machHeaderSize + sumCmdsizes bl := hlaym.1
  rw [removeLastLC]
  simp only [hlcs, List.getLast?_concat, Option.getD_some, List.dropLast_concat,
    write_mach_header, List.set_set]
  rw [getD_set_self _ _ _ (by simpa [write_mach_header] using hai)]
  refine ⟨?_, by simp, trivial⟩
  refine ⟨?_, ?_, ?_, ?_⟩
  · simp only
    rw [sub32_eq _ _ (by omega) hsz]
    omega
  · simp only
    rw [sub32_eq _ _ (by omega) hnc]
    omega
  · simp only
    exact hlayb
  · simp only
    intro y hy
    have hmem : y ∈ (u.archs.getD ai default).load_commands := by
      rw [hlcs]
      exact List.mem_append_left _ hy
    have hd := hinv.2.2.2 y hmem
    have hb := lcLayout_bounds bl _ hlayb y hy
    have hyraw : y.raw_lc.length = y.cmdsize := hwfraw y hmem
    intro k hk
    rw [read_fzero, if_neg (by omega), read_fwriteBytes,
      if_neg (by rw [encodeMachHeader_length]; unfold machHeaderSize at hb; omega)]
    exact hd k hk

theorem move_to_last_inv (s : MachOState) (ai : Nat) (l1 : List LoadCommand)
    (lc : LoadCommand) (l2 : List LoadCommand)
    (hai : ai < s.archs.length)
    (hlcs : (s.archs.getD ai default).load_commands = l1 ++ lc :: l2)
    (hwfraw : ∀ x ∈ (s.archs.getD ai default).load_commands, x.raw_lc.length = x.cmdsize)
    (hinv : archInv s.file (s.archs.getD ai default)) :
    archInv (move_load_command s ai l1.length (l1.length + l2.length)).file
      ((move_load_command s ai l1.length (l1.length + l2.length)).archs.getD ai default) ∧
    ((move_load_command s ai l1.length (l1.length + l2.length)).archs.getD ai
      default).mach_header = (s.archs.getD ai default).mach_header ∧
    (move_load_command s ai l1.length (l1.length + l2.length)).file_size = s.file_size := by
  obtain ⟨h1, h2, h3, _⟩ := move_to_last_spec s ai l1 lc l2 hai hlcs hwfraw hinv
  rw [h1, getD_set_self _ _ _ hai]
  exact ⟨h2, rfl, h3⟩

theorem remove_preserves_inv (s : MachOState) (ai : Nat) (l1 : List LoadCommand)
    (lc : LoadCommand) (l2 : List LoadCommand)
    (hai : ai < s.archs.length)
    (hlcs : (s.archs.getD ai default).load_commands = l1 ++ lc :: l2)
    (hwf : archWf (s.archs.getD ai default))
    (hinv : archInv s.file (s.archs.getD ai default)) :
    archInv (remove_load_command s ai l1.length).file
      ((remove_load_command s ai l1.length).archs.getD ai default) ∧
    ((remove_load_command s ai l1.length).archs.getD ai default).load_commands.length =
      (s.archs.getD ai default).load_commands.length - 1 ∧
    (remove_load_command s ai l1.length).file_size = s.file_size := by
  obtain ⟨harchs, hinvA, hfs, _⟩ := move_to_last_spec s ai l1 lc l2 hai hlcs (fun x hx => (hwf.1 x hx).1) hinv
  have hs1 : remove_load_command s ai l1.length =
      removeLastLC (move_load_command s ai l1.length (l1.length + l2.length)) ai := by
    rw [remove_load_command]
    by_cases hlen : 1 < (s.archs.getD ai default).load_commands.length
    · rw [if_pos hlen]
      have harg : (s.archs.getD ai default).load_commands.length - 1 =
          l1.length + l2.length := by
        rw [hlcs]
        simp only [List.length_append, List.length_cons]
        omega
      rw [harg]
    · rw [if_neg hlen]
      have hl12 : l1 = [] ∧ l2 = [] := by
        rw [hlcs] at hlen
        simp only [List.length_append, List.length_cons] at hlen
        constructor <;> [cases l1; cases l2] <;> first | rfl | (simp at hlen; omega)
      rw [hl12.1, hl12.2, move_load_command, if_pos (by simp)]
  rw [hs1]
  have hMarch : ((move_load_command s ai l1.length (l1.length + l2.length)).archs.getD ai
      default) = archWithLCs (s.archs.getD ai default)
      (moveLastList ((s.archs.getD ai default).fat_arch.offset + machHeaderSize) l1 lc l2) := by
    rw [harchs, getD_set_self _ _ _ hai]
  have hailen : ai < (move_load_command s ai l1.length (l1.length + l2.length)).archs.length := by
    rw [harchs]
    simpa using hai
  have hlcs2 : ((move_load_command s ai l1.length (l1.length + l2.length)).archs.getD ai
      default).load_commands =
      (l1 ++ slideAssign ((s.archs.getD ai default).fat_arch.offset + machHeaderSize +
        sumCmdsizes l1) l2) ++
      [movedLC lc ((s.archs.getD ai default).fat_arch.offset + machHeaderSize +
        sumCmdsizes l1 + sumCmdsizes l2)] := by
    rw [hMarch]
    rfl
  have hwfraw2 : ∀ x ∈ ((move_load_command s ai l1.length (l1.length + l2.length)).archs.getD
      ai default).load_commands, x.raw_lc.length = x.cmdsize := by
    intro x hx
    rw [hlcs2] at hx
    rcases List.mem_append.mp hx with hx1 | hxm
    · rcases List.mem_append.mp hx1 with hxl1 | hxsl
      · exact (hwf.1 x (by rw [hlcs]; simp [hxl1])).1
      · rcases mem_slideAssign_shape _ _ x hxsl with ⟨z, hz, hraw, hcs⟩
        rw [hraw, hcs]
        exact (hwf.1 z (by rw [hlcs]; simp [hz])).1
    · have hxeq : x = movedLC lc ((s.archs.getD ai default).fat_arch.offset +
          machHeaderSize + sumCmdsizes l1 + sumCmdsizes l2) := by simpa using hxm
      rw [hxeq]
      exact (hwf.1 lc (by rw [hlcs]; simp)).1
  have hres := removeLast_inv (move_load_command s ai l1.length (l1.length + l2.length)) ai
    (l1 ++ slideAssign ((s.archs.getD ai default).fat_arch.offset + machHeaderSize +
      sumCmdsizes l1) l2)
    (movedLC lc ((s.archs.getD ai default).fat_arch.offset + machHeaderSize +
      sumCmdsizes l1 + sumCmdsizes l2))
    hailen hlcs2 hwfraw2
    (by rw [hMarch]; exact hwf.2.1) (by rw [hMarch]; exact hwf.2.2)
    (by rw [hMarch]; exact hinvA)
  refine ⟨hres.1, ?_, by rw [hres.2.2, hfs]⟩
  rw [hres.2.1, hlcs]
  simp only [List.length_append, length_slideAssign, List.length_cons]
  omega

theorem insert_preserves_inv (s : MachOState) (ai : Nat) (raw : List Nat)
    (hai : ai < s.archs.length)
    (hne : (s.archs.getD ai default).load_commands ≠ [])
    (hwf : archWf (s.archs.getD ai default))
    (hinv : archInv s.file (s.archs.getD ai default))
    (hcs_le : SWAP32 (read32 raw 4) (s.archs.getD ai default).mach_header.magic ≤ raw.length)
    (hbound : (s.archs.getD ai default).fat_arch.offset + machHeaderSize +
      (s.archs.getD ai default).mach_header.sizeofcmds +
      SWAP32 (read32 raw 4) (s.archs.getD ai default).mach_header.magic < 2 ^ 32)
    (hnc : (s.archs.getD ai default).mach_header.ncmds + 1 < 2 ^ 32) :
    archInv (insert_load_command s ai raw).file
      ((insert_load_command s ai raw).archs.getD ai default) ∧
    ((insert_load_command s ai raw).archs.getD ai default).load_commands.length =
      (s.archs.getD ai default).load_commands.length + 1 := by
  rcases hL : (s.archs.getD ai default).load_commands.getLast? with _ | last
  · exact absurd (List.getLast?_eq_none_iff.mp hL) hne
  have hlast : ((s.archs.getD ai default).load_commands.getLast?.getD default) = last := by
    rw [hL]
    rfl
  have hend := lcLayout_getLast (s.archs.getD ai default).load_commands
    ((s.archs.getD ai default).fat_arch.offset + machHeaderSize) hinv.2.2.1 hne
  rw [hlast] at hend
  have hsum := hinv.1
  have hoffeq : (last.file_offset + last.cmdsize) % 2 ^ 32 =
      (s.archs.getD ai default).fat_arch.offset + machHeaderSize +
      (s.archs.getD ai default).mach_header.sizeofcmds := by
    rw [hend, hsum]
    exact Nat.mod_eq_of_lt (by omega)
  rw [insert_load_command]
  simp only [hL, hoffeq, write_mach_header]
  rw [getD_set_self _ _ _ (by simpa using hai)]
  have htk : (raw.take (SWAP32 (read32 raw 4)
      (s.archs.getD ai default).mach_header.magic)).length =
      SWAP32 (read32 raw 4) (s.archs.getD ai default).mach_header.magic := by
    rw [List.length_take]
    omega
  have hcount := hinv.2.1
  refine ⟨⟨?_, ?_, ?_, ?_⟩, by simp⟩
  · simp only [sumCmdsizes_append, sumCmdsizes_cons, sumCmdsizes_nil]
    rw [Nat.mod_eq_of_lt (by omega)]
    omega
  · simp only [List.length_append, List.length_cons, List.length_nil]
    rw [Nat.mod_eq_of_lt (by omega)]
    omega
  · rw [lcLayout_append]
    refine ⟨hinv.2.2.1, ?_⟩
    simp only [lcLayout, and_true]
    rw [hsum]
  · intro y hy
    rcases List.mem_append.mp hy with hyl | hynew
    · have hd := hinv.2.2.2 y hyl
      have hb := lcLayout_bounds _ _ hinv.2.2.1 y hyl
      have hyraw : y.raw_lc.length = y.cmdsize := (hwf.1 y hyl).1
      intro k hk
      rw [hsum] at hb
      have hb28 : (s.archs.getD ai default).fat_arch.offset + 28 ≤ y.file_offset := by
        unfold machHeaderSize at hb
        omega
      rw [read_fwriteBytes, if_neg (by rw [encodeMachHeader_length]; omega)]
      rw [read_fwriteBytes, htk, if_neg (by omega)]
      exact hd k hk
    · have hyeq : y = ⟨SWAP32 (read32 raw 0) (s.archs.getD ai default).mach_header.magic,
          SWAP32 (read32 raw 4) (s.archs.getD ai default).mach_header.magic,
          (s.archs.getD ai default).fat_arch.offset + machHeaderSize +
            (s.archs.getD ai default).mach_header.sizeofcmds,
          raw.take (SWAP32 (read32 raw 4) (s.archs.getD ai default).mach_header.magic)⟩ := by
        simpa using hynew
      rw [hyeq]
      intro k hk
      simp only at hk ⊢
      have hmh28 : machHeaderSize = 28 := rfl
      rw [read_fwriteBytes, if_neg (by rw [encodeMachHeader_length, hmh28]; omega)]
      rw [read_fwriteBytes, if_pos (by omega)]
      congr 1
      omega

theorem move_arith_spec (s : MachOState) (ai : Nat) (l1 : List LoadCommand)
    (lc : LoadCommand) (l2 l3 : List LoadCommand)
    (hai : ai < s.archs.length)
    (hlcs : (s.archs.getD ai default).load_commands = l1 ++ lc :: (l2 ++ l3)) :
    move_load_command s ai (l1.length + l2.length) l1.length =
      move_load_command s ai l1.length (l1.length + l2.length) ∧
    ((move_load_command s ai l1.length (l1.length + l2.length)).archs.getD ai
      default).mach_header = (s.archs.getD ai default).mach_header ∧
    ((move_load_command s ai l1.length (l1.length + l2.length)).archs.getD ai
      default).fat_arch = (s.archs.getD ai default).fat_arch ∧
    sumCmdsizes ((move_load_command s ai l1.length (l1.length + l2.length)).archs.getD ai
      default).load_commands = sumCmdsizes (s.archs.getD ai default).load_commands ∧
    ((move_load_command s ai l1.length (l1.length + l2.length)).archs.getD ai
      default).load_commands.length = (s.archs.getD ai default).load_commands.length ∧
    (move_load_command s ai l1.length (l1.length + l2.length)).file_size = s.file_size := by
  cases l2 with
  | nil =>
    have h1 : move_load_command s ai l1.length (l1.length + ([] : List LoadCommand).length) =
        s := by
      rw [move_load_command, if_pos (by simp)]
    have h2 : move_load_command s ai (l1.length + ([] : List LoadCommand).length) l1.length =
        s := by
      rw [move_load_command, if_pos (by simp)]
    rw [h1, h2]
    exact ⟨rfl, rfl, rfl, rfl, rfl, rfl⟩
  | cons x xs =>
    have hmeq : move_load_command s ai (l1.length + (x :: xs).length) l1.length =
        move_load_command s ai l1.length (l1.length + (x :: xs).length) := by
      rw [move_load_command, if_neg (by simp), if_pos (by simp)]
      rw [move_load_command, if_neg (by simp), if_neg (by omega)]
    refine ⟨hmeq, ?_⟩
    rw [move_load_command, if_neg (by simp), if_neg (by omega), moveCore]
    simp only [hlcs, getD_append_length, drop_append_length_succ, take_append_length,
      slide_fst, slide_endoff]
    have htk : List.take (l1.length + (x :: xs).length - l1.length) ((x :: xs) ++ l3) =
        x :: xs := by
      have harg : l1.length + (x :: xs).length - l1.length = (x :: xs).length := by omega
      rw [harg, List.take_left]
    have hdr : List.drop (l1.length + (x :: xs).length + 1) (l1 ++ lc :: (x :: xs ++ l3)) =
        l3 := by
      have hsplit : l1 ++ lc :: (x :: xs ++ l3) = (l1 ++ lc :: (x :: xs)) ++ l3 := by simp
      have hlen : (l1 ++ lc :: (x :: xs)).length = l1.length + (x :: xs).length + 1 := by
        simp only [List.length_append, List.length_cons]
        omega
      rw [hsplit, ← hlen, List.drop_left]
    rw [htk, hdr]
    rw [getD_set_self _ _ _ (by simpa using hai)]
    refine ⟨rfl, rfl, ?_, ?_, trivial⟩
    · simp only [sumCmdsizes_append, sumCmdsizes_slideAssign, sumCmdsizes_cons,
        sumCmdsizes_nil]
      omega
    · simp only [List.length_append, length_slideAssign, List.length_cons, List.length_nil]
      omega

/-- Claim C2 amended.  The claim as stated fails (see the counterexample):
after `move_load_command` to a non-final position, and after
`insert_load_command` on an empty list, the positional invariant is broken.
What the code does guarantee, for the mutated arch of a well-formed
consistent slice: (1) every `move_load_command` preserves the mach header,
the `cmdsize` sum and the record count; (2) a move whose HIGHER index is
the last position preserves the full invariant — `Σ cmdsize = sizeofcmds`,
`count = ncmds`, `file_offset[i] = slice.offset + sizeof(MachHeader) +
Σ_{k<i} cmdsize`, and the in-memory list describing the bytes on disk; (3)
`insert_load_command` preserves the full invariant when the list is
nonempty (with the payload byte-count and `uint32` counters in range); (4)
`remove_load_command` always preserves the full invariant. -/
theorem c2_amended :
    (∀ (s : MachOState) (ai : Nat) (l1 : List LoadCommand) (lc : LoadCommand)
      (l2 l3 : List LoadCommand), ai < s.archs.length →
      (s.archs.getD ai default).load_commands = l1 ++ lc :: (l2 ++ l3) →
      move_load_command s ai (l1.length + l2.length) l1.length =
        move_load_command s ai l1.length (l1.length + l2.length) ∧
      ((move_load_command s ai l1.length (l1.length + l2.length)).archs.getD ai
        default).mach_header = (s.archs.getD ai default).mach_header ∧
      ((move_load_command s ai l1.length (l1.length + l2.length)).archs.getD ai
        default).fat_arch = (s.archs.getD ai default).fat_arch ∧
      sumCmdsizes ((move_load_command s ai l1.length (l1.length + l2.length)).archs.getD ai
        default).load_commands = sumCmdsizes (s.archs.getD ai default).load_commands ∧
      ((move_load_command s ai l1.length (l1.length + l2.length)).archs.getD ai
        default).load_commands.length = (s.archs.getD ai default).load_commands.length ∧
      (move_load_command s ai l1.length (l1.length + l2.length)).file_size = s.file_size) ∧
    (∀ (s : MachOState) (ai : Nat) (l1 : List LoadCommand) (lc : LoadCommand)
      (l2 : List LoadCommand), ai < s.archs.length →
      (s.archs.getD ai default).load_commands = l1 ++ lc :: l2 →
      (∀ x ∈ (s.archs.getD ai default).load_commands, x.raw_lc.length = x.cmdsize) →
      archInv s.file (s.archs.getD ai default) →
      archInv (move_load_command s ai l1.length (l1.length + l2.length)).file
        ((move_load_command s ai l1.length (l1.length + l2.length)).archs.getD ai default) ∧
      ((move_load_command s ai l1.length (l1.length + l2.length)).archs.getD ai
        default).mach_header = (s.archs.getD ai default).mach_header ∧
      (move_load_command s ai l1.length (l1.length + l2.length)).file_size = s.file_size) ∧
    (∀ (s : MachOState) (ai : Nat) (raw : List Nat), ai < s.archs.length →
      (s.archs.getD ai default).load_commands ≠ [] →
      archWf (s.archs.getD ai default) →
      archInv s.file (s.archs.getD ai default) →
      SWAP32 (read32 raw 4) (s.archs.getD ai default).mach_header.magic ≤ raw.length →
      (s.archs.getD ai default).fat_arch.offset + machHeaderSize +
        (s.archs.getD ai default).mach_header.sizeofcmds +
        SWAP32 (read32 raw 4) (s.archs.getD ai default).mach_header.magic < 2 ^ 32 →
      (s.archs.getD ai default).mach_header.ncmds + 1 < 2 ^ 32 →
      archInv (insert_load_command s ai raw).file
        ((insert_load_command s ai raw).archs.getD ai default) ∧
      ((insert_load_command s ai raw).archs.getD ai default).load_commands.length =
        (s.archs.getD ai default).load_commands.length + 1) ∧
    (∀ (s : MachOState) (ai : Nat) (l1 : List LoadCommand) (lc : LoadCommand)
      (l2 : List LoadCommand), ai < s.archs.length →
      (s.archs.getD ai default).load_commands = l1 ++ lc :: l2 →
      archWf (s.archs.getD ai default) →
      archInv s.file (s.archs.getD ai default) →
      archInv (remove_load_command s ai l1.length).file
        ((remove_load_command s ai l1.length).archs.getD ai default) ∧
      ((remove_load_command s ai l1.length).archs.getD ai default).load_commands.length =
        (s.archs.getD ai default).load_commands.length - 1 ∧
      (remove_load_command s ai l1.length).file_size = s.file_size) :=
  ⟨move_arith_spec, move_to_last_inv, insert_preserves_inv, remove_preserves_inv⟩

/-- Witness for C2: the remove conjunct applied to the concrete consistent
3-command slice `exMove3`, removing the first command. -/
theorem c2_witness :
    archInv (remove_load_command exMove3 0 0).file
      ((remove_load_command exMove3 0 0).archs.getD 0 default) ∧
    ((remove_load_command exMove3 0 0).archs.getD 0 default).load_commands.length =
      (exMove3.archs.getD 0 default).load_commands.length - 1 ∧
    (remove_load_command exMove3 0 0).file_size = exMove3.file_size :=
  c2_amended.2.2.2 exMove3 0 [] lcA [lcB, lcC] (by decide) (by decide) (by decide) (by decide)

theorem move_keeps (t : MachOState) (ai i j : Nat) (hai : ai < t.archs.length) :
    ((move_load_command t ai i j).archs.getD ai default).fat_arch =
      (t.archs.getD ai default).fat_arch ∧
    ((move_load_command t ai i j).archs.getD ai default).mach_header =
      (t.archs.getD ai default).mach_header ∧
    (move_load_command t ai i j).file_size = t.file_size ∧
    ai < (move_load_command t ai i j).archs.length := by
  rw [move_load_command]
  by_cases h1 : i = j
  · rw [if_pos h1]
    exact ⟨rfl, rfl, rfl, hai⟩
  · rw [if_neg h1]
    by_cases h2 : j < i
    · rw [if_pos h2, moveCore, getD_set_self _ _ _ (by simpa using hai)]
      exact ⟨rfl, rfl, rfl, by simpa using hai⟩
    · rw [if_neg h2, moveCore, getD_set_self _ _ _ (by simpa using hai)]
      exact ⟨rfl, rfl, rfl, by simpa using hai⟩

theorem removeLast_keeps (u : MachOState) (ai : Nat) (hai : ai < u.archs.length) :
    ((removeLastLC u ai).archs.getD ai default).fat_arch =
      (u.archs.getD ai default).fat_arch ∧
    (removeLastLC u ai).file_size = u.file_size := by
  rw [removeLastLC]
  simp only [write_mach_header, List.set_set]
  rw [getD_set_self _ _ _ (by simpa using hai)]
  exact ⟨rfl, trivial⟩

theorem remove_keeps (t : MachOState) (ai li : Nat) (hai : ai < t.archs.length) :
    ((remove_load_command t ai li).archs.getD ai default).fat_arch =
      (t.archs.getD ai default).fat_arch ∧
    (remove_load_command t ai li).file_size = t.file_size := by
  rw [remove_load_command]
  by_cases h : 1 < (t.archs.getD ai default).load_commands.length
  · rw [if_pos h]
    obtain ⟨hfa, _, hfs, hlen⟩ := move_keeps t ai li
      ((t.archs.getD ai default).load_commands.length - 1) hai
    obtain ⟨hfa2, hfs2⟩ := removeLast_keeps _ ai hlen
    rw [hfa2, hfa, hfs2, hfs]
    exact ⟨rfl, rfl⟩
  · rw [if_neg h]
    exact removeLast_keeps t ai hai

theorem write_fat_archs_archs (t : MachOState) :
    (write_fat_archs t).archs = t.archs ∧ (write_fat_archs t).is_fat = t.is_fat ∧
    (write_fat_archs t).n_archs = t.n_archs := by
  rw [write_fat_archs]
  by_cases h1 : t.is_fat = false
  · rw [if_pos h1]
    by_cases h2 : t.file_size ≠ (t.archs.getD 0 default).fat_arch.size
    · rw [if_pos h2]
      exact ⟨rfl, rfl, rfl⟩
    · rw [if_neg h2]
      exact ⟨rfl, rfl, rfl⟩
  · rw [if_neg h1]
    by_cases h2 : 0 < t.n_archs
    · rw [if_pos h2]
      by_cases h3 : ((t.archs.getLast?.getD default).fat_arch.offset +
          (t.archs.getLast?.getD default).fat_arch.size) % 2 ^ 32 ≠ t.file_size
      · rw [if_pos h3]
        exact ⟨rfl, rfl, rfl⟩
      · rw [if_neg h3]
        exact ⟨rfl, rfl, rfl⟩
    · rw [if_neg h2]
      exact ⟨rfl, rfl, rfl⟩

theorem sizeReduction_bounds (arch : MachOArch) (sym : Option Nat) (cs_size magic : Nat)
    (hcsb : cs_size + 16 < 2 ^ 32) (hle : cs_size ≤ arch.fat_arch.size) :
    cs_size ≤ sizeReductionOf arch sym cs_size magic ∧
    sizeReductionOf arch sym cs_size magic ≤ cs_size + 16 ∧
    sizeReductionOf arch sym cs_size magic ≤ arch.fat_arch.size := by
  cases sym with
  | none =>
    simp only [sizeReductionOf]
    exact ⟨Nat.le_refl _, by omega, hle⟩
  | some si =>
    simp only [sizeReductionOf]
    split
    · next h =>
      obtain ⟨h0, h16⟩ := h
      rw [Nat.mod_eq_of_lt (by omega)]
      refine ⟨by omega, by omega, by omega⟩
    · next h => exact ⟨Nat.le_refl _, by omega, hle⟩

theorem getLast?_set_last {α : Type} (l : List α) (x : α) (h : 0 < l.length) :
    (l.set (l.length - 1) x).getLast? = some x := by
  rw [List.getLast?_eq_getElem?, List.length_set, List.getElem?_set_self']
  rw [List.getElem?_eq_getElem (by omega)]
  simp

theorem getLast?_set_lt {α : Type} (l : List α) (i : Nat) (x : α) (h : i + 1 < l.length) :
    (l.set i x).getLast? = l.getLast? := by
  rw [List.getLast?_eq_getElem?, List.getLast?_eq_getElem?, List.length_set]
  rw [List.getElem?_set_ne (by omega)]

theorem tail_pipeline_facts (s : MachOState) (ai ci : Nat) (arch1 : MachOArch)
    (lk : LoadCommand) (hai : ai < s.archs.length) :
    ((remove_load_command (write_load_command
        (write_fat_archs {s with archs := s.archs.set ai arch1}) lk) ai ci).archs.getD ai
      default).fat_arch = arch1.fat_arch ∧
    (remove_load_command (write_load_command
        (write_fat_archs {s with archs := s.archs.set ai arch1}) lk) ai ci).file_size =
      (write_fat_archs {s with archs := s.archs.set ai arch1}).file_size := by
  have harchs : (write_load_command
      (write_fat_archs {s with archs := s.archs.set ai arch1}) lk).archs =
      s.archs.set ai arch1 := by
    rw [write_load_command]
    exact (write_fat_archs_archs _).1
  have hlen : ai < (write_load_command
      (write_fat_archs {s with archs := s.archs.set ai arch1}) lk).archs.length := by
    rw [harchs]
    simpa using hai
  obtain ⟨hfa, hfs⟩ := remove_keeps _ ai ci hlen
  rw [hfa, harchs, getD_set_self _ _ _ (by simpa using hai), hfs]
  exact ⟨rfl, rfl⟩

theorem wfa_thin_size (s : MachOState) (arch1 : MachOArch) (hfat : s.is_fat = false)
    (h0 : 0 < s.archs.length) :
    (write_fat_archs {s with archs := s.archs.set 0 arch1}).file_size =
      if s.file_size ≠ arch1.fat_arch.size then arch1.fat_arch.size else s.file_size := by
  rw [write_fat_archs]
  simp only [hfat, eq_self_iff_true, if_true]
  rw [getD_set_self _ _ _ (by simpa using h0)]
  by_cases h : s.file_size ≠ arch1.fat_arch.size
  · rw [if_pos h, if_pos h]
  · rw [if_neg h, if_neg h]

theorem wfa_fat_last_size (s : MachOState) (arch1 : MachOArch) (hfat : s.is_fat = true)
    (hn : 0 < s.n_archs) (h0 : 0 < s.archs.length) :
    (write_fat_archs {s with archs := s.archs.set (s.archs.length - 1) arch1}).file_size =
      if (arch1.fat_arch.offset + arch1.fat_arch.size) % 2 ^ 32 ≠ s.file_size then
        (arch1.fat_arch.offset + arch1.fat_arch.size) % 2 ^ 32 else s.file_size := by
  rw [write_fat_archs]
  simp only [hfat]
  rw [if_neg (by simp)]
  rw [if_pos (by simpa using hn)]
  rw [getLast?_set_last _ _ h0]
  simp only [Option.getD_some]
  by_cases h : (arch1.fat_arch.offset + arch1.fat_arch.size) % 2 ^ 32 ≠ s.file_size
  · rw [if_pos h, if_pos h]
  · rw [if_neg h, if_neg h]

theorem wfa_fat_mid_size (s : MachOState) (arch1 : MachOArch) (i : Nat)
    (hfat : s.is_fat = true) (hn : 0 < s.n_archs) (hi : i + 1 < s.archs.length)
    (hfs : s.file_size = (s.archs.getLast?.getD default).fat_arch.offset +
      (s.archs.getLast?.getD default).fat_arch.size)
    (h32 : (s.archs.getLast?.getD default).fat_arch.offset +
      (s.archs.getLast?.getD default).fat_arch.size < 2 ^ 32) :
    (write_fat_archs {s with archs := s.archs.set i arch1}).file_size = s.file_size := by
  rw [write_fat_archs]
  simp only [hfat]
  rw [if_neg (by simp)]
  rw [if_pos (by simpa using hn)]
  rw [getLast?_set_lt _ _ _ hi]
  rw [if_neg (by rw [Nat.mod_eq_of_lt h32]; omega)]

/-! ## Claim C4: amended -/

/-- Claim C4 amended: when `remove_codesignature` succeeds, the slice's
fat-entry size shrinks by exactly `red`, where
`codesig.datasize ≤ red ≤ codesig.datasize + 16` (the symtab tail-gap rule);
the tracked file size shrinks by `red` when the container is thin, or when
the edited slice is the LAST of a fat container; but for a NON-LAST slice
of a fat container the file size is unchanged — `write_fat_archs`
truncates to `last.offset + last.size`, which the edit does not move. -/
theorem c4_amended (s : MachOState) (ai ci li : Nat) (cs_off cs_size red : Nat)
    (hai : ai < s.archs.length)
    (hcs : (scanLCs (s.archs.getD ai default).load_commands).codesig = some ci)
    (hL : (scanLCs (s.archs.getD ai default).load_commands).linkedit = some li)
    (hcsoff : cs_off = SWAP32
      (read32 ((s.archs.getD ai default).load_commands.getD ci default).raw_lc 8)
      (s.archs.getD ai default).mach_header.magic)
    (hcssize : cs_size = SWAP32
      (read32 ((s.archs.getD ai default).load_commands.getD ci default).raw_lc 12)
      (s.archs.getD ai default).mach_header.magic)
    (hred : red = sizeReductionOf (s.archs.getD ai default)
      (scanLCs (s.archs.getD ai default).load_commands).symtab cs_size
      (s.archs.getD ai default).mach_header.magic)
    (hv1 : (cs_off + cs_size) % 2 ^ 32 = (s.archs.getD ai default).fat_arch.size)
    (hv2 : ((if ((s.archs.getD ai default).load_commands.getD li default).cmd = LC_SEGMENT
        then SWAP32 (read32 ((s.archs.getD ai default).load_commands.getD li
          default).raw_lc 32) (s.archs.getD ai default).mach_header.magic
        else SWAP64 (read64 ((s.archs.getD ai default).load_commands.getD li
          default).raw_lc 40) (s.archs.getD ai default).mach_header.magic) +
      (if ((s.archs.getD ai default).load_commands.getD li default).cmd = LC_SEGMENT
        then SWAP32 (read32 ((s.archs.getD ai default).load_commands.getD li
          default).raw_lc 36) (s.archs.getD ai default).mach_header.magic
        else SWAP64 (read64 ((s.archs.getD ai default).load_commands.getD li
          default).raw_lc 48) (s.archs.getD ai default).mach_header.magic)) % 2 ^ 64 =
      (s.archs.getD ai default).fat_arch.size)
    (hnowrap : cs_off + cs_size < 2 ^ 32)
    (hsz32 : (s.archs.getD ai default).fat_arch.size < 2 ^ 32)
    (hcsb : cs_size + 16 < 2 ^ 32) :
    (remove_codesignature s ai).1 = true ∧
    cs_size ≤ red ∧ red ≤ cs_size + 16 ∧
    red ≤ (s.archs.getD ai default).fat_arch.size ∧
    ((remove_codesignature s ai).2.archs.getD ai default).fat_arch.size =
      (s.archs.getD ai default).fat_arch.size - red ∧
    (s.is_fat = false → ai = 0 →
      s.file_size = (s.archs.getD ai default).fat_arch.size →
      (remove_codesignature s ai).2.file_size = s.file_size - red) ∧
    (s.is_fat = true → 0 < s.n_archs → ai = s.archs.length - 1 →
      s.file_size = (s.archs.getD ai default).fat_arch.offset +
        (s.archs.getD ai default).fat_arch.size →
      (s.archs.getD ai default).fat_arch.offset +
        (s.archs.getD ai default).fat_arch.size < 2 ^ 32 →
      (remove_codesignature s ai).2.file_size = s.file_size - red) ∧
    (s.is_fat = true → 0 < s.n_archs → ai + 1 < s.archs.length →
      s.file_size = (s.archs.getLast?.getD default).fat_arch.offset +
        (s.archs.getLast?.getD default).fat_arch.size →
      (s.archs.getLast?.getD default).fat_arch.offset +
        (s.archs.getLast?.getD default).fat_arch.size < 2 ^ 32 →
      (remove_codesignature s ai).2.file_size = s.file_size) := by
  have hle : cs_size ≤ (s.archs.getD ai default).fat_arch.size := by
    rw [← hv1, Nat.mod_eq_of_lt hnowrap]
    omega
  obtain ⟨hb1, hb2, hb3⟩ := sizeReduction_bounds (s.archs.getD ai default)
    (scanLCs (s.archs.getD ai default).load_commands).symtab cs_size
    (s.archs.getD ai default).mach_header.magic hcsb hle
  rw [← hred] at hb1 hb2 hb3
  subst hcsoff
  subst hcssize
  rw [remove_codesignature]
  simp only [hcs, hL]
  rw [if_neg (by intro h; exact h hv1)]
  rw [if_neg (by intro h; exact h hv2)]
  rw [← hred]
  refine ⟨rfl, hb1, hb2, hb3, ?_, ?_, ?_, ?_⟩
  · rw [(tail_pipeline_facts s ai ci _ _ hai).1]
    exact sub32_eq _ _ hb3 hsz32
  · intro hfat hai0 hfs
    subst hai0
    rw [(tail_pipeline_facts s 0 ci _ _ hai).2]
    rw [wfa_thin_size s _ hfat (by omega)]
    dsimp only
    rw [sub32_eq _ _ hb3 hsz32]
    split
    · next h => omega
    · next h => omega
  · intro hfat hn hlast hfs h32
    subst hlast
    rw [(tail_pipeline_facts s (s.archs.length - 1) ci _ _ hai).2]
    rw [wfa_fat_last_size s _ hfat hn (by omega)]
    dsimp only
    rw [sub32_eq _ _ hb3 hsz32]
    rw [Nat.mod_eq_of_lt (by omega)]
    split
    · next h => omega
    · next h => omega
  · intro hfat hn hi hfs h32
    rw [(tail_pipeline_facts s ai ci _ _ hai).2]
    exact wfa_fat_mid_size s _ ai hfat hn hi hfs h32


/-- Witness for C4: the amended statement evaluated on the concrete thin
signed slice `exThin2` (`datasize` 32, no symtab, so the reduction is
exactly 32). -/
theorem c4_witness :
    (remove_codesignature exThin2 0).1 = true ∧
    (remove_codesignature exThin2 0).2.file_size = exThin2.file_size - 32 := by
  have h := c4_amended exThin2 0 1 0 224 32 32 (by decide) (by decide) (by decide)
    (by decide) (by decide) (by decide) (by decide) (by decide) (by decide) (by decide)
    (by decide)
  exact ⟨h.1, h.2.2.2.2.2.1 rfl rfl (by decide)⟩
